import Mathlib

/-!
Verification development for the AWS CloudWatch MCP adapter
(`aws_cloudwatch_mcp_adapter` plus its Lambda entry point).

Shallow embedding conventions:
* Python strings are modelled as `List Char` (`Str`); `strOf` injects Lean
  string literals.
* Python's dynamically typed JSON-like values (the payloads flowing through
  the adapter) are modelled by the inductive `JVal`.
* The standard library collaborators `json.dumps` (with compact separators)
  and `json.loads` are modelled by `serialize` and `parseJson`.
* Network effects of `aiohttp` and of the MCP SDK are modelled by explicit
  oracle values describing the remote server's behaviour; the client and
  orchestrator are total functions of the inbound event and the oracle,
  which models the "never raises" propagation policy of the source.
* Python dicts are modelled as insertion-ordered association lists with
  overwrite-in-place semantics (`dictInsert`, `dictGet`).
-/

/-- Python strings, modelled as lists of characters. -/
abbrev Str := List Char

/-- Injection of a Lean string literal into the `Str` model. -/
def strOf (s : String) : Str := s.data

/-- Model of Python's JSON-like dynamic values: `None`, `bool`, `int`,
`str`, `list` and (insertion-ordered) `dict`. -/
inductive JVal where
  | null
  | jbool (b : Bool)
  | jint (n : Int)
  | jstr (s : Str)
  | jarr (xs : List JVal)
  | jobj (kvs : List (Str × JVal))

/-- Python truthiness (`bool(v)`) over the modelled values. -/
def pyTruthy : JVal → Bool
  | .null => false
  | .jbool b => b
  | .jint n => n ≠ 0
  | .jstr s => s ≠ []
  | .jarr xs => !xs.isEmpty
  | .jobj kvs => !kvs.isEmpty

/-- Lookup in a Python dict modelled as an association list
(`d.get(key)` returning `None` as `none`). -/
def dictGet {α : Type} : List (Str × α) → Str → Option α
  | [], _ => none
  | (k, v) :: t, key => if k = key then some v else dictGet t key

/-- Assignment `d[key] = v` on a Python dict: replaces the value in place
when the key is present (keeping its position), else appends. -/
def dictInsert {α : Type} (key : Str) (v : α) (d : List (Str × α)) : List (Str × α) :=
  if (dictGet d key).isSome then
    d.map (fun p => if p.1 = key then (key, v) else p)
  else
    d ++ [(key, v)]

/-- Decimal digits of a natural number, most significant first
(helper for the aux recursion; fuel bounds the digit count). -/
def serNatAux : Nat → Nat → Str
  | 0, _ => []
  | fuel + 1, n => if n = 0 then [] else serNatAux fuel (n / 10) ++ [Nat.digitChar (n % 10)]

/-- Decimal representation of a natural number, as Python `str(n)` writes it. -/
def serNat (n : Nat) : Str := if n = 0 then ['0'] else serNatAux (n + 1) n

/-- Decimal representation of an integer, as Python `str(n)` writes it. -/
def serInt (n : Int) : Str := if n < 0 then '-' :: serNat n.natAbs else serNat n.toNat

/-- JSON string escaping of one character, as `json.dumps` performs it
(`ensure_ascii` differences do not matter to this repository's payloads):
quote and backslash get two-character escapes, the five short control
escapes are used where they exist, remaining control characters become
`\u00XY`, and all other characters stand for themselves. -/
def escChar (c : Char) : Str :=
  if c = '"' then ['\\', '"']
  else if c = '\\' then ['\\', '\\']
  else if c = '\n' then ['\\', 'n']
  else if c = '\t' then ['\\', 't']
  else if c = '\r' then ['\\', 'r']
  else if c = '\x08' then ['\\', 'b']
  else if c = '\x0c' then ['\\', 'f']
  else if c.toNat < 32 then
    ['\\', 'u', '0', '0', Nat.digitChar (c.toNat / 16), Nat.digitChar (c.toNat % 16)]
  else [c]

/-- JSON serialization of a string: quotes around the escaped characters. -/
def serStr (s : Str) : Str := '"' :: (s.flatMap escChar ++ ['"'])

mutual

/-- Model of `json.dumps(v, separators=(",", ":"))`: compact JSON text. -/
def serialize : JVal → Str
  | .null => strOf "null"
  | .jbool true => strOf "true"
  | .jbool false => strOf "false"
  | .jint n => serInt n
  | .jstr s => serStr s
  | .jarr xs => '[' :: (serElems xs ++ [']'])
  | .jobj kvs => '{' :: (serMembers kvs ++ ['}'])

/-- Comma-separated serialization of array elements. -/
def serElems : List JVal → Str
  | [] => []
  | [x] => serialize x
  | x :: y :: t => serialize x ++ ',' :: serElems (y :: t)

/-- Comma-separated serialization of object members, `"key":value` each. -/
def serMembers : List (Str × JVal) → Str
  | [] => []
  | [(k, v)] => serStr k ++ ':' :: serialize v
  | (k, v) :: m :: t => (serStr k ++ ':' :: serialize v) ++ ',' :: serMembers (m :: t)

end

/-- Value of a hexadecimal digit character, `none` for other characters. -/
def hexVal (c : Char) : Option Nat :=
  if '0' ≤ c ∧ c ≤ '9' then some (c.toNat - '0'.toNat)
  else if 'a' ≤ c ∧ c ≤ 'f' then some (c.toNat - 'a'.toNat + 10)
  else if 'A' ≤ c ∧ c ≤ 'F' then some (c.toNat - 'A'.toNat + 10)
  else none

/-- Parser for the body of a JSON string (after the opening quote), fuelled
by the input length; returns the decoded string and the remaining input. -/
def parseStrBodyF : Nat → Str → Option (Str × Str)
  | 0, _ => none
  | _ + 1, [] => none
  | fuel + 1, c :: r =>
    if c = '"' then some ([], r)
    else if c = '\\' then
      match r with
      | [] => none
      | e :: r1 =>
        if e = '"' then (parseStrBodyF fuel r1).map (fun p => ('"' :: p.1, p.2))
        else if e = '\\' then (parseStrBodyF fuel r1).map (fun p => ('\\' :: p.1, p.2))
        else if e = 'n' then (parseStrBodyF fuel r1).map (fun p => ('\n' :: p.1, p.2))
        else if e = 't' then (parseStrBodyF fuel r1).map (fun p => ('\t' :: p.1, p.2))
        else if e = 'r' then (parseStrBodyF fuel r1).map (fun p => ('\r' :: p.1, p.2))
        else if e = 'b' then (parseStrBodyF fuel r1).map (fun p => ('\x08' :: p.1, p.2))
        else if e = 'f' then (parseStrBodyF fuel r1).map (fun p => ('\x0c' :: p.1, p.2))
        else if e = 'u' then
          match r1 with
          | h1 :: h2 :: h3 :: h4 :: r2 =>
            match hexVal h1, hexVal h2, hexVal h3, hexVal h4 with
            | some a, some b, some c2, some d =>
              (parseStrBodyF fuel r2).map
                (fun p => (Char.ofNat (((a * 16 + b) * 16 + c2) * 16 + d) :: p.1, p.2))
            | _, _, _, _ => none
          | _ => none
        else none
    else (parseStrBodyF fuel r).map (fun p => (c :: p.1, p.2))

/-- Numeric value of a decimal digit character. -/
def digitVal (c : Char) : Nat := c.toNat - '0'.toNat

/-- Value of a list of decimal digit characters, most significant first. -/
def digitsToNat (ds : Str) : Nat := ds.foldl (fun a c => 10 * a + digitVal c) 0

/-- Parser for a nonempty run of decimal digits. -/
def parseNumBody (s : Str) : Option (Nat × Str) :=
  let ds := s.takeWhile (fun c => c.isDigit)
  if ds.isEmpty then none else some (digitsToNat ds, s.dropWhile (fun c => c.isDigit))

mutual

/-- Model of `json.loads` value parsing: recursive descent on the text,
fuelled (any fuel at least the node count of the value suffices). -/
def parseValF : Nat → Str → Option (JVal × Str)
  | 0, _ => none
  | _ + 1, [] => none
  | fuel + 1, c :: r =>
    if c = '"' then (parseStrBodyF r.length r).map (fun p => (.jstr p.1, p.2))
    else if c = '[' then
      if r.head? = some ']' then some (.jarr [], r.tail)
      else (parseElemsF fuel r).map (fun p => (.jarr p.1, p.2))
    else if c = '{' then
      if r.head? = some '}' then some (.jobj [], r.tail)
      else (parseMembersF fuel r).map (fun p => (.jobj p.1, p.2))
    else if c = '-' then
      (parseNumBody r).map (fun p => (.jint (-(p.1 : Int)), p.2))
    else if c.isDigit then
      (parseNumBody (c :: r)).map (fun p => (.jint (p.1 : Int), p.2))
    else if c = 'n' then
      if r.take 3 = strOf "ull" then some (.null, r.drop 3) else none
    else if c = 't' then
      if r.take 3 = strOf "rue" then some (.jbool true, r.drop 3) else none
    else if c = 'f' then
      if r.take 4 = strOf "alse" then some (.jbool false, r.drop 4) else none
    else none

/-- Parser for one or more comma-separated array elements up to `]`. -/
def parseElemsF : Nat → Str → Option (List JVal × Str)
  | 0, _ => none
  | fuel + 1, s =>
    match parseValF fuel s with
    | none => none
    | some (v, r) =>
      match r with
      | ',' :: r1 => (parseElemsF fuel r1).map (fun p => (v :: p.1, p.2))
      | ']' :: r1 => some ([v], r1)
      | _ => none

/-- Parser for one or more comma-separated object members up to `}`. -/
def parseMembersF : Nat → Str → Option (List (Str × JVal) × Str)
  | 0, _ => none
  | fuel + 1, s =>
    match s with
    | '"' :: r =>
      match parseStrBodyF r.length r with
      | none => none
      | some (k, r1) =>
        match r1 with
        | ':' :: r2 =>
          match parseValF fuel r2 with
          | none => none
          | some (v, r3) =>
            match r3 with
            | ',' :: r4 => (parseMembersF fuel r4).map (fun p => ((k, v) :: p.1, p.2))
            | '}' :: r4 => some ([(k, v)], r4)
            | _ => none
        | _ => none
    | _ => none

end

/-- Model of `json.loads(s)`: parse a complete JSON document, requiring the
whole input to be consumed. -/
def parseJson (s : Str) : Option JVal :=
  match parseValF s.length s with
  | some (v, []) => some v
  | _ => none

mutual

/-- Node count of a value: a fuel bound for `parseValF`. -/
def jsizeV : JVal → Nat
  | .null => 1
  | .jbool _ => 1
  | .jint _ => 1
  | .jstr _ => 1
  | .jarr xs => 1 + jsizeA xs
  | .jobj kvs => 1 + jsizeO kvs

/-- Node count of array elements. -/
def jsizeA : List JVal → Nat
  | [] => 0
  | x :: t => 1 + jsizeV x + jsizeA t

/-- Node count of object members. -/
def jsizeO : List (Str × JVal) → Nat
  | [] => 0
  | (_, v) :: t => 1 + jsizeV v + jsizeO t

end

/-- The input after a serialized number must not continue with a digit; this
holds at every call site of the round-trip argument. -/
def noDigitHead : Str → Prop
  | [] => True
  | c :: _ => c.isDigit = false

lemma digitVal_digitChar {d : Nat} (h : d < 10) : digitVal (Nat.digitChar d) = d := by
  have key : ∀ x : Fin 10, digitVal (Nat.digitChar x.val) = x.val := by decide
  exact key ⟨d, h⟩

lemma isDigit_digitChar {d : Nat} (h : d < 10) : (Nat.digitChar d).isDigit = true := by
  have key : ∀ x : Fin 10, (Nat.digitChar x.val).isDigit = true := by decide
  exact key ⟨d, h⟩

lemma hexVal_digitChar {d : Nat} (h : d < 16) : hexVal (Nat.digitChar d) = some d := by
  have key : ∀ x : Fin 16, hexVal (Nat.digitChar x.val) = some x.val := by decide
  exact key ⟨d, h⟩

lemma serNatAux_eq : ∀ fuel n, n ≤ fuel →
    serNatAux fuel n = ((Nat.digits 10 n).map Nat.digitChar).reverse := by
  intro fuel
  induction fuel with
  | zero =>
    intro n hn
    interval_cases n
    simp [serNatAux]
  | succ f ih =>
    intro n hn
    by_cases h0 : n = 0
    · subst h0; simp [serNatAux]
    · have hdiv : n / 10 < n := Nat.div_lt_self (Nat.pos_of_ne_zero h0) (by norm_num)
      rw [serNatAux, if_neg h0, ih (n / 10) (by omega),
        Nat.digits_def' (by norm_num) (Nat.pos_of_ne_zero h0)]
      simp

lemma serNat_eq (n : Nat) :
    serNat n = if n = 0 then ['0'] else ((Nat.digits 10 n).map Nat.digitChar).reverse := by
  unfold serNat
  by_cases h0 : n = 0
  · simp [h0]
  · rw [if_neg h0, if_neg h0, serNatAux_eq (n + 1) n (by omega)]

lemma serNat_ne_nil (n : Nat) : serNat n ≠ [] := by
  rw [serNat_eq]
  by_cases h0 : n = 0
  · simp [h0]
  · simp [h0, Nat.digits_ne_nil_iff_ne_zero]

lemma serNat_all_digits (n : Nat) : ∀ c ∈ serNat n, c.isDigit = true := by
  rw [serNat_eq]
  by_cases h0 : n = 0
  · simp [h0]
  · simp only [if_neg h0, List.mem_reverse, List.mem_map]
    rintro c ⟨d, hd, rfl⟩
    exact isDigit_digitChar (Nat.digits_lt_base (by norm_num) hd)

lemma foldr_digitChar_ofDigits :
    ∀ l : List Nat, (∀ d ∈ l, d < 10) →
      l.foldr (fun d a => 10 * a + digitVal (Nat.digitChar d)) 0 = Nat.ofDigits 10 l := by
  intro l
  induction l with
  | nil => intro _; simp [Nat.ofDigits]
  | cons d t ih =>
    intro h
    have hd : d < 10 := h d (List.mem_cons_self d t)
    rw [List.foldr_cons, ih (fun x hx => h x (List.mem_cons_of_mem d hx)),
      digitVal_digitChar hd, Nat.ofDigits_cons]
    omega

lemma digitsToNat_serNat (n : Nat) : digitsToNat (serNat n) = n := by
  rw [serNat_eq]
  by_cases h0 : n = 0
  · simp [h0]
    decide
  · rw [if_neg h0]
    unfold digitsToNat
    rw [List.foldl_reverse]
    have hmap := List.foldr_map Nat.digitChar
      (fun c (a : Nat) => 10 * a + digitVal c) (Nat.digits 10 n) 0
    simp only [hmap]
    rw [foldr_digitChar_ofDigits (Nat.digits 10 n)
      (fun d hd => Nat.digits_lt_base (by norm_num) hd)]
    exact Nat.ofDigits_digits 10 n

lemma serNat_head (n : Nat) : ∃ c t, serNat n = c :: t ∧ c.isDigit = true := by
  cases h : serNat n with
  | nil => exact absurd h (serNat_ne_nil n)
  | cons c t =>
    refine ⟨c, t, rfl, serNat_all_digits n c ?_⟩
    rw [h]
    exact List.mem_cons_self c t

lemma takeWhile_append_all {p : Char → Bool} (l r : Str) (hl : ∀ c ∈ l, p c = true) :
    (l ++ r).takeWhile p = l ++ r.takeWhile p := by
  induction l with
  | nil => simp
  | cons c t ih =>
    have hc : p c = true := hl c (List.mem_cons_self c t)
    simp only [List.cons_append, List.takeWhile_cons, hc, if_true]
    rw [ih (fun x hx => hl x (List.mem_cons_of_mem c hx))]

lemma dropWhile_append_all {p : Char → Bool} (l r : Str) (hl : ∀ c ∈ l, p c = true) :
    (l ++ r).dropWhile p = r.dropWhile p := by
  induction l with
  | nil => simp
  | cons c t ih =>
    have hc : p c = true := hl c (List.mem_cons_self c t)
    simp only [List.cons_append, List.dropWhile_cons, hc, if_true]
    exact ih (fun x hx => hl x (List.mem_cons_of_mem c hx))

lemma takeWhile_eq_nil_of_noDigitHead {r : Str} (h : noDigitHead r) :
    r.takeWhile (fun c => c.isDigit) = [] := by
  cases r with
  | nil => simp
  | cons c t =>
    simp only [noDigitHead] at h
    simp [List.takeWhile_cons, h]

lemma dropWhile_eq_self_of_noDigitHead {r : Str} (h : noDigitHead r) :
    r.dropWhile (fun c => c.isDigit) = r := by
  cases r with
  | nil => simp
  | cons c t =>
    simp only [noDigitHead] at h
    simp [List.dropWhile_cons, h]

lemma parseNumBody_serNat (n : Nat) (rest : Str) (h : noDigitHead rest) :
    parseNumBody (serNat n ++ rest) = some (n, rest) := by
  unfold parseNumBody
  rw [takeWhile_append_all (serNat n) rest (serNat_all_digits n),
    takeWhile_eq_nil_of_noDigitHead h,
    dropWhile_append_all (serNat n) rest (serNat_all_digits n),
    dropWhile_eq_self_of_noDigitHead h]
  simp only [List.append_nil]
  rw [if_neg (by simpa using serNat_ne_nil n)]
  rw [digitsToNat_serNat]


lemma psb_quote (f : Nat) (r : Str) : parseStrBodyF (f + 1) ('"' :: r) = some ([], r) := by
  simp [parseStrBodyF]

lemma psb_esc_quote (f : Nat) (r : Str) :
    parseStrBodyF (f + 1) ('\\' :: '"' :: r)
      = (parseStrBodyF f r).map (fun p => ('"' :: p.1, p.2)) := by
  simp [parseStrBodyF]

lemma psb_esc_bslash (f : Nat) (r : Str) :
    parseStrBodyF (f + 1) ('\\' :: '\\' :: r)
      = (parseStrBodyF f r).map (fun p => ('\\' :: p.1, p.2)) := by
  simp [parseStrBodyF]

lemma psb_esc_n (f : Nat) (r : Str) :
    parseStrBodyF (f + 1) ('\\' :: 'n' :: r)
      = (parseStrBodyF f r).map (fun p => ('\n' :: p.1, p.2)) := by
  simp [parseStrBodyF]

lemma psb_esc_t (f : Nat) (r : Str) :
    parseStrBodyF (f + 1) ('\\' :: 't' :: r)
      = (parseStrBodyF f r).map (fun p => ('\t' :: p.1, p.2)) := by
  simp [parseStrBodyF]

lemma psb_esc_r (f : Nat) (r : Str) :
    parseStrBodyF (f + 1) ('\\' :: 'r' :: r)
      = (parseStrBodyF f r).map (fun p => ('\r' :: p.1, p.2)) := by
  simp [parseStrBodyF]

lemma psb_esc_b (f : Nat) (r : Str) :
    parseStrBodyF (f + 1) ('\\' :: 'b' :: r)
      = (parseStrBodyF f r).map (fun p => ('\x08' :: p.1, p.2)) := by
  simp [parseStrBodyF]

lemma psb_esc_f (f : Nat) (r : Str) :
    parseStrBodyF (f + 1) ('\\' :: 'f' :: r)
      = (parseStrBodyF f r).map (fun p => ('\x0c' :: p.1, p.2)) := by
  simp [parseStrBodyF]

lemma psb_esc_u (f : Nat) (c3 c4 : Char) (x y : Nat) (r : Str)
    (e3 : hexVal c3 = some x) (e4 : hexVal c4 = some y) :
    parseStrBodyF (f + 1) ('\\' :: 'u' :: '0' :: '0' :: c3 :: c4 :: r)
      = (parseStrBodyF f r).map
          (fun p => (Char.ofNat (((0 * 16 + 0) * 16 + x) * 16 + y) :: p.1, p.2)) := by
  have e0 : hexVal '0' = some 0 := by decide
  simp [parseStrBodyF, e0, e3, e4]

lemma psb_other (f : Nat) (c : Char) (r : Str) (h1 : ¬c = '"') (h2 : ¬c = '\\') :
    parseStrBodyF (f + 1) (c :: r)
      = (parseStrBodyF f r).map (fun p => (c :: p.1, p.2)) := by
  simp only [parseStrBodyF]
  rw [if_neg h1, if_neg h2]

lemma parseStrBodyF_escape :
    ∀ s : Str, ∀ fuel rest, (s.flatMap escChar ++ '"' :: rest).length ≤ fuel →
      parseStrBodyF fuel (s.flatMap escChar ++ '"' :: rest) = some (s, rest) := by
  intro s
  induction s with
  | nil =>
    intro fuel rest h
    simp only [List.flatMap_nil, List.nil_append, List.length_cons] at h ⊢
    cases fuel with
    | zero => omega
    | succ f => exact psb_quote f rest
  | cons a s ih =>
    intro fuel rest h
    rw [List.flatMap_cons, List.append_assoc] at h ⊢
    by_cases h1 : a = '"'
    · subst h1
      rw [show escChar '"' = ['\\', '"'] from rfl] at h ⊢
      simp only [List.cons_append, List.nil_append, List.length_cons] at h ⊢
      cases fuel with
      | zero => omega
      | succ f => rw [psb_esc_quote, ih f rest (by omega)]; rfl
    · by_cases h2 : a = '\\'
      · subst h2
        rw [show escChar '\\' = ['\\', '\\'] from rfl] at h ⊢
        simp only [List.cons_append, List.nil_append, List.length_cons] at h ⊢
        cases fuel with
        | zero => omega
        | succ f => rw [psb_esc_bslash, ih f rest (by omega)]; rfl
      · by_cases h3 : a = '\n'
        · subst h3
          rw [show escChar '\n' = ['\\', 'n'] from rfl] at h ⊢
          simp only [List.cons_append, List.nil_append, List.length_cons] at h ⊢
          cases fuel with
          | zero => omega
          | succ f => rw [psb_esc_n, ih f rest (by omega)]; rfl
        · by_cases h4 : a = '\t'
          · subst h4
            rw [show escChar '\t' = ['\\', 't'] from rfl] at h ⊢
            simp only [List.cons_append, List.nil_append, List.length_cons] at h ⊢
            cases fuel with
            | zero => omega
            | succ f => rw [psb_esc_t, ih f rest (by omega)]; rfl
          · by_cases h5 : a = '\r'
            · subst h5
              rw [show escChar '\r' = ['\\', 'r'] from rfl] at h ⊢
              simp only [List.cons_append, List.nil_append, List.length_cons] at h ⊢
              cases fuel with
              | zero => omega
              | succ f => rw [psb_esc_r, ih f rest (by omega)]; rfl
            · by_cases h6 : a = '\x08'
              · subst h6
                rw [show escChar '\x08' = ['\\', 'b'] from rfl] at h ⊢
                simp only [List.cons_append, List.nil_append, List.length_cons] at h ⊢
                cases fuel with
                | zero => omega
                | succ f => rw [psb_esc_b, ih f rest (by omega)]; rfl
              · by_cases h7 : a = '\x0c'
                · subst h7
                  rw [show escChar '\x0c' = ['\\', 'f'] from rfl] at h ⊢
                  simp only [List.cons_append, List.nil_append, List.length_cons] at h ⊢
                  cases fuel with
                  | zero => omega
                  | succ f => rw [psb_esc_f, ih f rest (by omega)]; rfl
                · by_cases h8 : a.toNat < 32
                  · have he : escChar a =
                        ['\\', 'u', '0', '0',
                          Nat.digitChar (a.toNat / 16), Nat.digitChar (a.toNat % 16)] := by
                      unfold escChar
                      rw [if_neg h1, if_neg h2, if_neg h3, if_neg h4, if_neg h5,
                        if_neg h6, if_neg h7, if_pos h8]
                    rw [he] at h ⊢
                    simp only [List.cons_append, List.nil_append, List.length_cons] at h ⊢
                    cases fuel with
                    | zero => omega
                    | succ f =>
                      rw [psb_esc_u f _ _ (a.toNat / 16) (a.toNat % 16) _
                        (hexVal_digitChar (by omega)) (hexVal_digitChar (by omega))]
                      rw [ih f rest (by omega)]
                      have ev : ((0 * 16 + 0) * 16 + a.toNat / 16) * 16 + a.toNat % 16
                          = a.toNat := by omega
                      rw [ev, Char.ofNat_toNat]
                      rfl
                  · have he : escChar a = [a] := by
                      unfold escChar
                      rw [if_neg h1, if_neg h2, if_neg h3, if_neg h4, if_neg h5,
                        if_neg h6, if_neg h7, if_neg h8]
                    rw [he] at h ⊢
                    simp only [List.cons_append, List.nil_append, List.length_cons] at h ⊢
                    cases fuel with
                    | zero => omega
                    | succ f => rw [psb_other f a _ h1 h2, ih f rest (by omega)]; rfl

lemma pv_word_null (f : Nat) (rest : Str) :
    parseValF (f + 1) ('n' :: 'u' :: 'l' :: 'l' :: rest) = some (.null, rest) := by
  simp [parseValF]
  decide

lemma pv_word_true (f : Nat) (rest : Str) :
    parseValF (f + 1) ('t' :: 'r' :: 'u' :: 'e' :: rest) = some (.jbool true, rest) := by
  simp [parseValF]
  decide

lemma pv_word_false (f : Nat) (rest : Str) :
    parseValF (f + 1) ('f' :: 'a' :: 'l' :: 's' :: 'e' :: rest) = some (.jbool false, rest) := by
  simp [parseValF]
  decide

lemma pv_arr_nil (f : Nat) (rest : Str) :
    parseValF (f + 1) ('[' :: ']' :: rest) = some (.jarr [], rest) := by
  simp [parseValF]

lemma pv_obj_nil (f : Nat) (rest : Str) :
    parseValF (f + 1) ('{' :: '}' :: rest) = some (.jobj [], rest) := by
  simp [parseValF]

lemma pv_str (f : Nat) (s rest : Str) :
    parseValF (f + 1) ('"' :: (s.flatMap escChar ++ '"' :: rest)) = some (.jstr s, rest) := by
  simp only [parseValF]
  rw [if_pos trivial, parseStrBodyF_escape s _ rest (le_refl _)]
  rfl

lemma digit_ne_delims {c : Char} (h : c.isDigit = true) :
    c ≠ '"' ∧ c ≠ '[' ∧ c ≠ '{' ∧ c ≠ '-' := by
  refine ⟨?_, ?_, ?_, ?_⟩ <;> (intro e; subst e; exact absurd h (by decide))

lemma digit_not_delim {c : Char} (h : c.isDigit = true) : c ≠ ']' ∧ c ≠ '}' := by
  refine ⟨?_, ?_⟩ <;> (intro e; subst e; exact absurd h (by decide))

lemma noDigitHead_nil : noDigitHead [] := trivial

lemma noDigitHead_cons {c : Char} {rest : Str} (h : c.isDigit = false) :
    noDigitHead (c :: rest) := h

lemma pv_num (f : Nat) (n : Int) (rest : Str) (h : noDigitHead rest) :
    parseValF (f + 1) (serInt n ++ rest) = some (.jint n, rest) := by
  by_cases hn : n < 0
  · rw [serInt, if_pos hn, List.cons_append]
    simp only [parseValF]
    rw [if_pos trivial, parseNumBody_serNat _ _ h]
    have hcast : (n.natAbs : Int) = -n := Int.ofNat_natAbs_of_nonpos (le_of_lt hn)
    simp [hcast]
  · rw [serInt, if_neg hn]
    obtain ⟨c, t, hct, hd⟩ := serNat_head n.toNat
    obtain ⟨d1, d2, d3, d4⟩ := digit_ne_delims hd
    rw [hct, List.cons_append]
    simp only [parseValF]
    rw [if_neg d1, if_neg d2, if_neg d3, if_neg d4, if_pos hd,
      show c :: (t ++ rest) = (c :: t) ++ rest from rfl, ← hct,
      parseNumBody_serNat _ _ h]
    simp [Int.toNat_of_nonneg (not_lt.mp hn)]

lemma serialize_head (j : JVal) :
    ∃ c t, serialize j = c :: t ∧ c ≠ ']' ∧ c ≠ '}' := by
  cases j with
  | null => exact ⟨'n', _, rfl, by decide, by decide⟩
  | jbool b =>
    cases b with
    | true => exact ⟨'t', _, rfl, by decide, by decide⟩
    | false => exact ⟨'f', _, rfl, by decide, by decide⟩
  | jint n =>
    by_cases hn : n < 0
    · refine ⟨'-', serNat n.natAbs, ?_, by decide, by decide⟩
      show serInt n = _
      rw [serInt, if_pos hn]
    · obtain ⟨c, t, hct, hd⟩ := serNat_head n.toNat
      obtain ⟨e1, e2⟩ := digit_not_delim hd
      refine ⟨c, t, ?_, e1, e2⟩
      show serInt n = _
      rw [serInt, if_neg hn, hct]
  | jstr s => exact ⟨'"', _, rfl, by decide, by decide⟩
  | jarr xs => exact ⟨'[', _, rfl, by decide, by decide⟩
  | jobj kvs => exact ⟨'{', _, rfl, by decide, by decide⟩

lemma serElems_cons (x : JVal) (t : List JVal) :
    ∃ w, serElems (x :: t) = serialize x ++ w := by
  cases t with
  | nil => exact ⟨[], by simp [serElems]⟩
  | cons y t2 => exact ⟨',' :: serElems (y :: t2), rfl⟩

lemma serMembers_cons (k : Str) (v : JVal) (t : List (Str × JVal)) :
    ∃ w, serMembers ((k, v) :: t) = serStr k ++ w := by
  cases t with
  | nil => exact ⟨':' :: serialize v, rfl⟩
  | cons m t2 =>
    exact ⟨':' :: serialize v ++ ',' :: serMembers (m :: t2), by simp [serMembers]⟩

lemma jsizeV_arr (xs : List JVal) : jsizeV (.jarr xs) = 1 + jsizeA xs := rfl

lemma jsizeV_obj (kvs : List (Str × JVal)) : jsizeV (.jobj kvs) = 1 + jsizeO kvs := rfl

lemma jsizeA_nil : jsizeA [] = 0 := rfl

lemma jsizeA_cons (x : JVal) (t : List JVal) : jsizeA (x :: t) = 1 + jsizeV x + jsizeA t := rfl

lemma jsizeO_nil : jsizeO [] = 0 := rfl

lemma jsizeO_cons (k : Str) (v : JVal) (t : List (Str × JVal)) :
    jsizeO ((k, v) :: t) = 1 + jsizeV v + jsizeO t := rfl

lemma jsizeV_pos (j : JVal) : 1 ≤ jsizeV j := by
  cases j <;> simp [jsizeV]

lemma parse_ser_aux : ∀ N : Nat,
    (∀ j : JVal, jsizeV j ≤ N → ∀ fuel rest, jsizeV j ≤ fuel → noDigitHead rest →
      parseValF fuel (serialize j ++ rest) = some (j, rest)) ∧
    (∀ xs : List JVal, xs ≠ [] → jsizeA xs ≤ N → ∀ fuel rest, jsizeA xs ≤ fuel →
      parseElemsF fuel (serElems xs ++ ']' :: rest) = some (xs, rest)) ∧
    (∀ kvs : List (Str × JVal), kvs ≠ [] → jsizeO kvs ≤ N → ∀ fuel rest, jsizeO kvs ≤ fuel →
      parseMembersF fuel (serMembers kvs ++ '}' :: rest) = some (kvs, rest)) := by
  intro N
  induction N using Nat.strong_induction_on with
  | _ N IH =>
    refine ⟨?_, ?_, ?_⟩
    · intro j hN fuel rest hfuel hrest
      cases j with
      | null =>
        cases fuel with
        | zero => exact absurd hfuel (by simp [jsizeV])
        | succ f =>
          rw [show serialize JVal.null = ['n', 'u', 'l', 'l'] from rfl]
          simp only [List.cons_append, List.nil_append]
          exact pv_word_null f rest
      | jbool b =>
        cases fuel with
        | zero => exact absurd hfuel (by simp [jsizeV])
        | succ f =>
          cases b with
          | true =>
            rw [show serialize (JVal.jbool true) = ['t', 'r', 'u', 'e'] from rfl]
            simp only [List.cons_append, List.nil_append]
            exact pv_word_true f rest
          | false =>
            rw [show serialize (JVal.jbool false) = ['f', 'a', 'l', 's', 'e'] from rfl]
            simp only [List.cons_append, List.nil_append]
            exact pv_word_false f rest
      | jint n =>
        cases fuel with
        | zero => exact absurd hfuel (by simp [jsizeV])
        | succ f =>
          rw [show serialize (JVal.jint n) = serInt n from rfl]
          exact pv_num f n rest hrest
      | jstr s =>
        cases fuel with
        | zero => exact absurd hfuel (by simp [jsizeV])
        | succ f =>
          rw [show serialize (JVal.jstr s) = serStr s from rfl, serStr]
          simp only [List.cons_append, List.append_assoc, List.singleton_append]
          exact pv_str f s rest
      | jarr xs =>
        rw [jsizeV_arr] at hN hfuel
        cases fuel with
        | zero => omega
        | succ f =>
          cases xs with
          | nil =>
            rw [show serialize (JVal.jarr []) = ['[', ']'] from rfl]
            simp only [List.cons_append, List.nil_append]
            exact pv_arr_nil f rest
          | cons x t =>
            rw [show serialize (JVal.jarr (x :: t)) = '[' :: (serElems (x :: t) ++ [']'])
              from rfl]
            simp only [List.cons_append, List.append_assoc, List.singleton_append,
              List.nil_append]
            obtain ⟨w, hw⟩ := serElems_cons x t
            obtain ⟨c0, t0, hc0, hne1, hne2⟩ := serialize_head x
            have hhead : (serElems (x :: t) ++ ']' :: rest).head? = some c0 := by
              rw [hw, hc0]
              simp
            simp only [parseValF]
            rw [if_neg (by decide), if_pos trivial, if_neg (by rw [hhead]; simp [hne1])]
            have hQ := (IH (jsizeA (x :: t)) (by omega)).2.1 (x :: t)
              (List.cons_ne_nil x t) (le_refl _) f rest (by omega)
            rw [hQ]
            rfl
      | jobj kvs =>
        rw [jsizeV_obj] at hN hfuel
        cases fuel with
        | zero => omega
        | succ f =>
          cases kvs with
          | nil =>
            rw [show serialize (JVal.jobj []) = ['{', '}'] from rfl]
            simp only [List.cons_append, List.nil_append]
            exact pv_obj_nil f rest
          | cons kv t =>
            obtain ⟨k, v⟩ := kv
            rw [show serialize (JVal.jobj ((k, v) :: t))
              = '{' :: (serMembers ((k, v) :: t) ++ ['}']) from rfl]
            simp only [List.cons_append, List.append_assoc, List.singleton_append,
              List.nil_append]
            obtain ⟨w, hw⟩ := serMembers_cons k v t
            have hhead : (serMembers ((k, v) :: t) ++ '}' :: rest).head? = some '"' := by
              rw [hw]
              simp [serStr]
            simp only [parseValF]
            rw [if_neg (by decide), if_neg (by decide), if_pos trivial,
              if_neg (by rw [hhead]; simp)]
            have hR := (IH (jsizeO ((k, v) :: t)) (by omega)).2.2 ((k, v) :: t)
              (List.cons_ne_nil (k, v) t) (le_refl _) f rest (by omega)
            rw [hR]
            rfl
    · intro xs hne hN fuel rest hfuel
      cases xs with
      | nil => exact absurd rfl hne
      | cons x t =>
        rw [jsizeA_cons] at hN hfuel
        cases fuel with
        | zero => omega
        | succ f =>
          simp only [parseElemsF]
          cases t with
          | nil =>
            rw [jsizeA_nil] at hN hfuel
            rw [show serElems [x] = serialize x from by simp [serElems]]
            have hP := (IH (jsizeV x) (by omega)).1 x (le_refl _) f (']' :: rest)
              (by omega) (noDigitHead_cons (by decide))
            rw [hP]
            rfl
          | cons y t2 =>
            rw [show serElems (x :: y :: t2) = serialize x ++ ',' :: serElems (y :: t2)
              from rfl, List.append_assoc, List.cons_append]
            have hP := (IH (jsizeV x) (by omega)).1 x (le_refl _) f
              (',' :: (serElems (y :: t2) ++ ']' :: rest))
              (by omega) (noDigitHead_cons (by decide))
            rw [hP]
            have hQ := (IH (jsizeA (y :: t2)) (by omega)).2.1 (y :: t2)
              (List.cons_ne_nil y t2) (le_refl _) f rest (by omega)
            simp [hQ]
    · intro kvs hne hN fuel rest hfuel
      cases kvs with
      | nil => exact absurd rfl hne
      | cons kv t =>
        obtain ⟨k, v⟩ := kv
        rw [jsizeO_cons] at hN hfuel
        cases fuel with
        | zero => omega
        | succ f =>
          cases t with
          | nil =>
            rw [jsizeO_nil] at hN hfuel
            rw [show serMembers [(k, v)] = serStr k ++ ':' :: serialize v from rfl, serStr]
            simp only [List.cons_append, List.append_assoc, List.singleton_append,
              List.nil_append]
            simp only [parseMembersF]
            rw [parseStrBodyF_escape k _ (':' :: (serialize v ++ '}' :: rest)) (le_refl _)]
            have hP := (IH (jsizeV v) (by omega)).1 v (le_refl _) f ('}' :: rest)
              (by omega) (noDigitHead_cons (by decide))
            simp [hP]
          | cons m t2 =>
            rw [show serMembers ((k, v) :: m :: t2)
              = (serStr k ++ ':' :: serialize v) ++ ',' :: serMembers (m :: t2) from rfl,
              serStr]
            simp only [List.cons_append, List.append_assoc, List.singleton_append,
              List.nil_append]
            simp only [parseMembersF]
            rw [parseStrBodyF_escape k _
              (':' :: (serialize v ++ ',' :: (serMembers (m :: t2) ++ '}' :: rest)))
              (le_refl _)]
            have hP := (IH (jsizeV v) (by omega)).1 v (le_refl _) f
              (',' :: (serMembers (m :: t2) ++ '}' :: rest))
              (by omega) (noDigitHead_cons (by decide))
            have hR := (IH (jsizeO (m :: t2)) (by omega)).2.2 (m :: t2)
              (List.cons_ne_nil m t2) (le_refl _) f rest (by omega)
            simp [hP, hR]

lemma jsize_le_len_aux : ∀ N : Nat,
    (∀ j, jsizeV j ≤ N → jsizeV j ≤ (serialize j).length) ∧
    (∀ xs, jsizeA xs ≤ N → jsizeA xs ≤ (serElems xs).length + 1) ∧
    (∀ kvs, jsizeO kvs ≤ N → jsizeO kvs ≤ (serMembers kvs).length + 1) := by
  intro N
  induction N using Nat.strong_induction_on with
  | _ N IH =>
    refine ⟨?_, ?_, ?_⟩
    · intro j hN
      cases j with
      | null => simp [jsizeV, show serialize JVal.null = ['n', 'u', 'l', 'l'] from rfl]
      | jbool b =>
        cases b with
        | true => simp [jsizeV, show serialize (JVal.jbool true) = ['t', 'r', 'u', 'e'] from rfl]
        | false =>
          simp [jsizeV, show serialize (JVal.jbool false) = ['f', 'a', 'l', 's', 'e'] from rfl]
      | jint n =>
        have h1 : serInt n ≠ [] := by
          rw [serInt]
          split
          · simp
          · exact serNat_ne_nil _
        have h2 : 1 ≤ (serialize (JVal.jint n)).length := by
          rw [show serialize (JVal.jint n) = serInt n from rfl]
          exact List.length_pos.mpr h1
        simpa [jsizeV] using h2
      | jstr s =>
        rw [show serialize (JVal.jstr s) = serStr s from rfl, serStr]
        simp [jsizeV]
      | jarr xs =>
        rw [jsizeV_arr] at hN ⊢
        have hA := (IH (jsizeA xs) (by omega)).2.1 xs (le_refl _)
        rw [show serialize (JVal.jarr xs) = '[' :: (serElems xs ++ [']']) from rfl]
        simp only [List.length_cons, List.length_append]
        simp at hA ⊢
        omega
      | jobj kvs =>
        rw [jsizeV_obj] at hN ⊢
        have hO := (IH (jsizeO kvs) (by omega)).2.2 kvs (le_refl _)
        rw [show serialize (JVal.jobj kvs) = '{' :: (serMembers kvs ++ ['}']) from rfl]
        simp only [List.length_cons, List.length_append]
        simp at hO ⊢
        omega
    · intro xs hN
      cases xs with
      | nil => simp [jsizeA_nil, serElems]
      | cons x t =>
        rw [jsizeA_cons] at hN ⊢
        have hV := (IH (jsizeV x) (by omega)).1 x (le_refl _)
        cases t with
        | nil =>
          rw [jsizeA_nil, show serElems [x] = serialize x from by simp [serElems]]
          omega
        | cons y t2 =>
          have hA := (IH (jsizeA (y :: t2)) (by omega)).2.1 (y :: t2) (le_refl _)
          rw [show serElems (x :: y :: t2) = serialize x ++ ',' :: serElems (y :: t2) from rfl]
          simp only [List.length_append, List.length_cons]
          omega
    · intro kvs hN
      cases kvs with
      | nil => simp [jsizeO_nil, serMembers]
      | cons kv t =>
        obtain ⟨k, v⟩ := kv
        rw [jsizeO_cons] at hN ⊢
        have hV := (IH (jsizeV v) (by omega)).1 v (le_refl _)
        cases t with
        | nil =>
          rw [jsizeO_nil, show serMembers [(k, v)] = serStr k ++ ':' :: serialize v from rfl]
          simp only [List.length_append, List.length_cons]
          omega
        | cons m t2 =>
          have hO := (IH (jsizeO (m :: t2)) (by omega)).2.2 (m :: t2) (le_refl _)
          rw [show serMembers ((k, v) :: m :: t2)
            = (serStr k ++ ':' :: serialize v) ++ ',' :: serMembers (m :: t2) from rfl]
          simp only [List.length_append, List.length_cons]
          omega

lemma jsizeV_le_len (j : JVal) : jsizeV j ≤ (serialize j).length :=
  (jsize_le_len_aux (jsizeV j)).1 j (le_refl _)

/-- Serializing any modelled value and parsing the result recovers the
value exactly: the round-trip between the `json.dumps` and `json.loads`
models. -/
theorem parseJson_serialize (j : JVal) : parseJson (serialize j) = some j := by
  have h := (parse_ser_aux (jsizeV j)).1 j (le_refl _) (serialize j).length []
    (jsizeV_le_len j) noDigitHead_nil
  rw [List.append_nil] at h
  unfold parseJson
  rw [h]

/-- A Python dict with string keys and dynamic values. -/
abbrev Dict := List (Str × JVal)

/-- Lookup of a key inside a modelled JSON object (used by theorems to
inspect envelope fields). -/
def jget (v : JVal) (key : Str) : Option JVal :=
  match v with
  | .jobj kvs => dictGet kvs key
  | _ => none

/-- The `ErrorType` enumeration of `adapter_types.py`. -/
inductive ErrorType where
  | validation_error
  | connection_error
  | mcp_server_error
  | processing_error
deriving DecidableEq

/-- An error tag as dynamically passed in the source: a member of the
`ErrorType` enumeration, or (exploiting Python's dynamic typing, as
`HealthCheckHandler` does with the string `"HEALTH_CHECK_FAILED"`) any
other value, modelled by its string form. -/
inductive ErrorTagDyn where
  | ofType (t : ErrorType)
  | ofStr (s : Str)
deriving DecidableEq

/-- The `MCPResponse` dataclass of `adapter_types.py`. The `error` field is
annotated `Optional[str]` but receives arbitrary values at runtime
(`call_jsonrpc_http_endpoint` stores `data.get("error", ...)`), so it is
modelled as an optional dynamic value. -/
structure MCPResponse where
  success : Bool
  data : Option JVal
  error : Option JVal
  error_type : Option ErrorTagDyn

/-- `MCPResponse.success_response`. -/
def MCPResponse.success_response (data : JVal) : MCPResponse :=
  ⟨true, some data, none, none⟩

/-- `MCPResponse.error_response`. -/
def MCPResponse.error_response (error : JVal) (error_type : ErrorTagDyn) : MCPResponse :=
  ⟨false, none, some error, some error_type⟩

/-- One entry of a Bedrock parameter list: a dict carrying `name` and
`value` keys, or anything else (which `_process_parameter_list` skips). -/
inductive ParamEntry where
  | entry (name : Str) (value : JVal)
  | malformed

/-- The keys of `BedrockParameterProcessor.TYPE_CONVERTERS` (every one of
which maps to Python `int`). -/
def TYPE_CONVERTER_NAMES : List Str :=
  [strOf "max_results", strOf "max_items", strOf "timeout", strOf "retries"]

/-- `BedrockParameterProcessor.BOOLEAN_FIELDS`. -/
def BOOLEAN_FIELDS : List Str :=
  [strOf "dry_run", strOf "include_all", strOf "include_linked_accounts",
   strOf "recursive", strOf "force", strOf "verbose"]

/-- Model of Python `int(value)` on the modelled values: decimal strings
(optional sign) parse, booleans coerce to 0/1, integers pass through, and
every other argument raises (`none`, caught by the caller). -/
def pyInt : JVal → Option Int
  | .jstr s =>
    match s with
    | '-' :: t =>
      if t ≠ [] ∧ t.all (fun c => c.isDigit) then some (-(digitsToNat t : Int)) else none
    | '+' :: t =>
      if t ≠ [] ∧ t.all (fun c => c.isDigit) then some ((digitsToNat t : Int)) else none
    | t => if t ≠ [] ∧ t.all (fun c => c.isDigit) then some ((digitsToNat t : Int)) else none
  | .jint n => some n
  | .jbool b => some (if b then 1 else 0)
  | _ => none

/-- `BedrockParameterProcessor._convert_to_boolean`. -/
def convert_to_boolean (value : JVal) : JVal :=
  match value with
  | .jstr s =>
    let l := s.map Char.toLower
    if l = strOf "true" ∨ l = strOf "1" ∨ l = strOf "yes" then .jbool true
    else if l = strOf "false" ∨ l = strOf "0" ∨ l = strOf "no" then .jbool false
    else .jstr s
  | v => v

/-- `BedrockParameterProcessor._convert_and_store_param`: coerce by field
name (a failed `int()` keeps the original value) and store. -/
def convert_and_store_param (name : Str) (value : JVal) (d : Dict) : Dict :=
  if name ∈ TYPE_CONVERTER_NAMES then
    match pyInt value with
    | some n => dictInsert name (.jint n) d
    | none => dictInsert name value d
  else if name ∈ BOOLEAN_FIELDS then dictInsert name (convert_to_boolean value) d
  else dictInsert name value d

/-- `BedrockParameterProcessor._process_parameter_list`. -/
def process_parameter_list (params : List ParamEntry) (d : Dict) : Dict :=
  match params with
  | [] => d
  | .entry name value :: t => process_parameter_list t (convert_and_store_param name value d)
  | .malformed :: t => process_parameter_list t d

/-- The `application/json` entry of a request body's `content`, by the
shapes `_process_request_body` distinguishes: a dict holding a
`properties` list, a dict whose `properties` is not a list, a direct list,
or any other shape (the non-list shapes are skipped, log-only). -/
inductive JsonContent where
  | withProps (props : List ParamEntry)
  | withPropsNonList
  | direct (items : List ParamEntry)
  | otherShape

/-- A `requestBody` value: its `content.get("application/json")` entry,
`none` when absent or falsy. -/
structure RequestBody where
  jsonContent : Option JsonContent

/-- `BedrockParameterProcessor._process_request_body`. -/
def process_request_body (rb : RequestBody) (d : Dict) : Dict :=
  match rb.jsonContent with
  | none => d
  | some (.withProps props) => process_parameter_list props d
  | some .withPropsNonList => d
  | some (.direct items) => process_parameter_list items d
  | some .otherShape => d

/-- The nested `agent` object of an inbound event (`event["agent"]`),
with its optional `id`. -/
structure AgentObj where
  id : Option Str

/-- An inbound Bedrock Agent event, with the fields this adapter reads;
`none` models an absent key. -/
structure BedrockEvent where
  actionGroup : Option Str
  apiPath : Option Str
  httpMethod : Option Str
  parameters : List ParamEntry
  requestBody : Option RequestBody
  requestId : Option Str
  messageId : Option Str
  sessionId : Option Str
  agent : Option AgentObj

/-- `BedrockParameterProcessor._create_default_context`; `now` models
`int(time.time())`. -/
def create_default_context (ev : BedrockEvent) (now : Nat) : JVal :=
  .jobj
    [ (strOf "request_id",
        .jstr (ev.requestId.getD (ev.messageId.getD (strOf "req-" ++ serNat now)))),
      (strOf "source", .jstr (strOf "bedrock-agent")),
      (strOf "session_id", .jstr (ev.sessionId.getD (strOf "default-session"))),
      (strOf "agent_id",
        .jstr (match ev.agent with
          | none => strOf "unknown-agent"
          | some a => a.id.getD (strOf "unknown-agent"))) ]

/-- `BedrockParameterProcessor.process_parameters`: the flat parameter
list, then the request body, then context synthesis when no `ctx` key is
present. -/
def process_parameters (ev : BedrockEvent) (now : Nat) : Dict :=
  let d0 := process_parameter_list ev.parameters []
  let d1 := match ev.requestBody with
    | none => d0
    | some rb => process_request_body rb d0
  if (dictGet d1 (strOf "ctx")).isSome then d1
  else dictInsert (strOf "ctx") (create_default_context ev now) d1

/-- `BedrockResponseFormatter.MESSAGE_VERSION`. -/
def MESSAGE_VERSION : Str := strOf "1.0"

/-- `BedrockResponseFormatter.format_success_response`: the Bedrock
envelope with status 200 and the compact-JSON `body` string. -/
def format_success_response (action_group api_path http_method : Str) (data : JVal) : JVal :=
  .jobj
    [ (strOf "messageVersion", .jstr MESSAGE_VERSION),
      (strOf "response", .jobj
        [ (strOf "actionGroup", .jstr action_group),
          (strOf "apiPath", .jstr api_path),
          (strOf "httpMethod", .jstr http_method),
          (strOf "httpStatusCode", .jint 200),
          (strOf "responseBody", .jobj
            [ (strOf "application/json", .jobj
                [ (strOf "body", .jstr (serialize data)) ]) ]) ]) ]

/-- `BedrockResponseFormatter.format_error_response` (its default status
500 is written explicitly at the call site that omits the argument). -/
def format_error_response (action_group api_path http_method : Str)
    (error_message : Str) (status_code : Int) : JVal :=
  .jobj
    [ (strOf "messageVersion", .jstr MESSAGE_VERSION),
      (strOf "response", .jobj
        [ (strOf "actionGroup", .jstr action_group),
          (strOf "apiPath", .jstr api_path),
          (strOf "httpMethod", .jstr http_method),
          (strOf "httpStatusCode", .jint status_code),
          (strOf "responseBody", .jobj
            [ (strOf "application/json", .jobj
                [ (strOf "body",
                    .jstr (serialize (.jobj [(strOf "error", .jstr error_message)]))) ]) ]) ]) ]

/-- `BedrockResponseFormatter.extract_request_info`: the routing triple,
absent fields defaulting to the empty string. -/
def extract_request_info (ev : BedrockEvent) : Str × Str × Str :=
  (ev.actionGroup.getD [], ev.apiPath.getD [], ev.httpMethod.getD [])

/-- The handler variants of `route_handlers.py`. -/
inductive RouteHandler where
  | toolCall (tool_name : Str) (rest_style : Bool)
  | listTools
  | healthCheck
deriving DecidableEq

/-- The default `RouteRegistry._routes` table (the source binds `/health`
to `ListToolsHandler`). -/
def default_routes : List (Str × RouteHandler) :=
  [ (strOf "/describe-log-groups", .toolCall (strOf "describe_log_groups") true),
    (strOf "/analyze-log-group", .toolCall (strOf "analyze_log_group") true),
    (strOf "/get-metric-data", .toolCall (strOf "get_metric_data") true),
    (strOf "/get-metric-metadata", .toolCall (strOf "get_metric_metadata") true),
    (strOf "/get-recommended-metric-alarms",
      .toolCall (strOf "get_recommended_metric_alarms") true),
    (strOf "/get-active-alarms", .toolCall (strOf "get_active_alarms") true),
    (strOf "/get-alarm-history", .toolCall (strOf "get_alarm_history") true),
    (strOf "/list-tools", .listTools),
    (strOf "/health", .listTools) ]

/-- Fuelled scanner behind Python `str.replace(pat, rep)`: leftmost,
non-overlapping, all occurrences; one fuel unit per step, so the input
length always suffices as fuel. -/
def replaceAllF (pat rep : Str) : Nat → Str → Str
  | 0, s => s
  | _ + 1, [] => []
  | fuel + 1, c :: t =>
    if pat ≠ [] ∧ pat <+: (c :: t)
    then rep ++ replaceAllF pat rep fuel ((c :: t).drop pat.length)
    else c :: replaceAllF pat rep fuel t

/-- Python `s.replace(pat, rep)` (for the nonempty patterns used here). -/
def pyReplace (s pat rep : Str) : Str := replaceAllF pat rep s.length s

/-- Python `s.lstrip("/")`. -/
def lstripSlash : Str → Str
  | [] => []
  | c :: t => if c = '/' then lstripSlash t else c :: t

/-- The path normalization inside `RouteRegistry.get_handler`: drop the
action-group prefix (double-slash form first, then single), strip leading
slashes, and re-prepend one slash when absent. -/
def normalize_path (api_path : Str) : Str :=
  let p :=
    pyReplace (pyReplace api_path (strOf "CloudWatchMCP//") []) (strOf "CloudWatchMCP/") []
  let q := lstripSlash p
  if q.head? = some '/' then q else '/' :: q

/-- `RouteRegistry.get_handler`: try the raw path, then the normalized
form (the source's `or` over handler objects, which are always truthy). -/
def get_handler (api_path : Str) : Option RouteHandler :=
  match dictGet default_routes api_path with
  | some h => some h
  | none => dictGet default_routes (normalize_path api_path)

/-- Outcome of one HTTP POST as the client observes it: a response with a
status and a parsed body (when `resp.json()` fails the text is used, still
a modelled value), or a raised network exception with its message. -/
inductive HttpOutcome where
  | resp (status : Nat) (body : JVal)
  | raise (msg : Str)

/-- Oracle for the direct JSON-RPC/HTTP path: the result of
`get_session_id` (which already returns `None` on non-200 responses,
missing fields and exceptions), then the outcomes of the initialize POST
and the tools/call POST. -/
structure DirectOracle where
  sessionId : Option Str
  handshake : HttpOutcome
  call : HttpOutcome

/-- One tool descriptor returned by the legacy `session.list_tools()`. -/
structure ToolDesc where
  name : Str
  description : Option Str
  inputSchema : JVal

/-- One content item of a legacy tool-call result. -/
structure ContentItem where
  text : Str

/-- A legacy `session.call_tool` result: its content items (`None` and the
empty list are indistinguishable to the caller, which treats both as "no
content"). -/
structure CallToolResult where
  content : List ContentItem

/-- An initialized legacy-protocol session: what `session.list_tools()`
and `session.call_tool(name, arguments)` return or raise. -/
structure LegacySession where
  tools : Except Str (List ToolDesc)
  callTool : JVal → JVal → Except Str CallToolResult

/-- Oracle for the legacy streaming path: a transport-level exception, a
timeout or exception during `session.initialize()`, or a ready session. -/
inductive LegacyOracle where
  | connectRaise (msg : Str)
  | initTimeout
  | initRaise (msg : Str)
  | ready (sess : LegacySession)

/-- The network world one `connect_and_execute` call runs against. -/
structure MCPOracle where
  direct : DirectOracle
  legacy : LegacyOracle

/-- The endpoint table of `MCPClient.connect_and_execute` and
`call_jsonrpc_http_endpoint` (the source repeats the same table). -/
def endpoint_map : List (Str × Str) :=
  [ (strOf "describe_log_groups", strOf "/describe-log-groups"),
    (strOf "analyze_log_group", strOf "/analyze-log-group"),
    (strOf "get_metric_data", strOf "/get-metric-data"),
    (strOf "get_metric_metadata", strOf "/get-metric-metadata"),
    (strOf "get_recommended_metric_alarms", strOf "/get-recommended-metric-alarms"),
    (strOf "get_active_alarms", strOf "/get-active-alarms"),
    (strOf "get_alarm_history", strOf "/get-alarm-history") ]

/-- Model of Python `str(value)` as the source applies it to a response
body: a string stands for itself, other values by their JSON text. -/
def pyStr (v : JVal) : Str :=
  match v with
  | .jstr s => s
  | v => serialize v

/-- `MCPClient.call_jsonrpc_http_endpoint`: unmapped tool, session fetch,
initialize handshake, tool call; each failure path resolves to an error
response (network exceptions inside the shared `try` block become
`CONNECTION_ERROR`). The falsy check `if not session_id` also rejects an
empty session id. -/
def call_jsonrpc_http_endpoint (o : DirectOracle) (tool_name : Str)
    (_parameters : Option Dict) : MCPResponse :=
  match dictGet endpoint_map tool_name with
  | none =>
    .error_response (.jstr (strOf "Unknown tool: " ++ tool_name)) (.ofType .validation_error)
  | some _ =>
    match o.sessionId with
    | none =>
      .error_response
        (.jstr (strOf "Could not obtain valid session id from MCP /session endpoint."))
        (.ofType .connection_error)
    | some sid =>
      if sid = [] then
        .error_response
          (.jstr (strOf "Could not obtain valid session id from MCP /session endpoint."))
          (.ofType .connection_error)
      else
        match o.handshake with
        | .raise m =>
          .error_response (.jstr (strOf "Connection error: " ++ m)) (.ofType .connection_error)
        | .resp st _ =>
          if st ≠ 200 then
            .error_response (.jstr (strOf "Failed MCP initialize")) (.ofType .mcp_server_error)
          else
            match o.call with
            | .raise m =>
              .error_response (.jstr (strOf "Connection error: " ++ m))
                (.ofType .connection_error)
            | .resp st2 data =>
              if st2 = 200 then .success_response data
              else
                .error_response
                  (match data with
                    | .jobj kvs =>
                      (dictGet kvs (strOf "error")).getD (.jstr (strOf "Unknown error"))
                    | d => .jstr (pyStr d))
                  (.ofType .mcp_server_error)

/-- `MCPClient._list_tools` over an initialized legacy session (a falsy
description — `None` or the empty string — becomes "No description"). -/
def list_tools_legacy (sess : LegacySession) : MCPResponse :=
  match sess.tools with
  | .error _ =>
    .error_response (.jstr (strOf "Failed to list tools from MCP server"))
      (.ofType .mcp_server_error)
  | .ok tools =>
    .success_response (.jobj
      [ (strOf "tools", .jarr (tools.map (fun tool => .jobj
          [ (strOf "name", .jstr tool.name),
            (strOf "description",
              .jstr (match tool.description with
                | none => strOf "No description"
                | some d => if d = [] then strOf "No description" else d)),
            (strOf "input_schema", tool.inputSchema) ]))) ])

/-- `MCPClient._call_tool` over an initialized legacy session. A missing
parameter map (`None` or the empty dict) or a missing `tool_name` key is a
validation failure; otherwise the tool is invoked with the `arguments`
sub-map (default empty), content items are mapped to `{text: ...}`, and an
exception from the invocation becomes `MCP_SERVER_ERROR`. -/
def call_tool_legacy (sess : LegacySession) (parameters : Option Dict) : MCPResponse :=
  match parameters with
  | none =>
    .error_response (.jstr (strOf "Tool name is required")) (.ofType .validation_error)
  | some ps =>
    if ps.isEmpty ∨ (dictGet ps (strOf "tool_name")).isNone then
      .error_response (.jstr (strOf "Tool name is required")) (.ofType .validation_error)
    else
      match sess.callTool ((dictGet ps (strOf "tool_name")).getD .null)
          ((dictGet ps (strOf "arguments")).getD (.jobj [])) with
      | .error _ =>
        .error_response (.jstr (strOf "Tool execution failed on MCP server"))
          (.ofType .mcp_server_error)
      | .ok result =>
        .success_response (.jobj
          [ (strOf "content", .jarr (result.content.map (fun item =>
              .jobj [ (strOf "text", .jstr item.text) ]))) ])

/-- `MCPClient._connect_and_execute_legacy`: transport and handshake
failures become `CONNECTION_ERROR`; an initialized session serves the two
supported sub-actions, and any other action name is a validation error. -/
def connect_and_execute_legacy (o : LegacyOracle) (action : Str)
    (parameters : Option Dict) : MCPResponse :=
  match o with
  | .connectRaise m =>
    .error_response (.jstr (strOf "Legacy protocol error: " ++ m)) (.ofType .connection_error)
  | .initRaise m =>
    .error_response (.jstr (strOf "Legacy protocol error: " ++ m)) (.ofType .connection_error)
  | .initTimeout =>
    .error_response (.jstr (strOf "Session initialization timeout"))
      (.ofType .connection_error)
  | .ready sess =>
    if action = strOf "list_tools" then list_tools_legacy sess
    else if action = strOf "call_tool" then call_tool_legacy sess parameters
    else
      .error_response (.jstr (strOf "Unknown action: " ++ action)) (.ofType .validation_error)

/-- `MCPClient.connect_and_execute`: the direct JSON-RPC/HTTP path for
tools in the endpoint map, the legacy streaming path otherwise. Totality
of this definition (over every oracle) models the "never raises" policy. -/
def connect_and_execute (o : MCPOracle) (tool_name : Str)
    (parameters : Option Dict) : MCPResponse :=
  match dictGet endpoint_map tool_name with
  | some _ => call_jsonrpc_http_endpoint o.direct tool_name parameters
  | none => connect_and_execute_legacy o.legacy tool_name parameters

/-- `MCPClient.health_check`: probe `describe_log_groups` with the fixed
health-check parameters; healthy iff the result is a success. -/
def health_check (o : MCPOracle) : Bool :=
  (connect_and_execute o (strOf "describe_log_groups")
    (some [ (strOf "ctx", .jobj [ (strOf "request_id", .jstr (strOf "health-check")),
              (strOf "source", .jstr (strOf "health")) ]),
            (strOf "region", .jstr (strOf "us-east-1")),
            (strOf "max_items", .jint 1) ])).success

/-- `AWSApiMCPAdapter._get_status_code_for_error`: the source's dict-get
with default 500 over the four enumeration members (a non-enumeration tag
or a missing tag falls through to the default). -/
def get_status_code_for_error (error_type : Option ErrorTagDyn) : Int :=
  match error_type with
  | some (.ofType .validation_error) => 400
  | some (.ofType .connection_error) => 502
  | some (.ofType .mcp_server_error) => 503
  | some (.ofType .processing_error) => 500
  | _ => 500

/-- `AWSApiMCPAdapter._get_generic_error_message`: the fixed user-facing
message per kind, default "Internal server error". -/
def get_generic_error_message (error_type : Option ErrorTagDyn) : Str :=
  match error_type with
  | some (.ofType .validation_error) => strOf "Invalid request parameters"
  | some (.ofType .connection_error) => strOf "Service temporarily unavailable"
  | some (.ofType .mcp_server_error) => strOf "External service error"
  | some (.ofType .processing_error) => strOf "Request processing failed"
  | _ => strOf "Internal server error"

/-- `AWSApiMCPAdapter._format_handler_error_response`: generic message and
mapped status code; the internal `result.error` is not consulted. -/
def format_handler_error_response (action_group api_path http_method : Str)
    (result : MCPResponse) : JVal :=
  format_error_response action_group api_path http_method
    (get_generic_error_message result.error_type)
    (get_status_code_for_error result.error_type)

/-- `AWSApiMCPAdapter._format_not_found_response`. -/
def format_not_found_response (action_group api_path http_method : Str) : JVal :=
  format_error_response action_group api_path http_method
    (strOf "Unknown API path: " ++ api_path) 404

/-- Dispatch of `handle` over the handler variants of
`route_handlers.py`. The `except` branch of `ToolCallHandler.handle` is
unreachable here because the modelled client is total. -/
def handler_handle (h : RouteHandler) (o : MCPOracle) (params : Dict) : MCPResponse :=
  match h with
  | .toolCall tool_name rest_style =>
    if rest_style then connect_and_execute o tool_name (some params)
    else
      connect_and_execute o (strOf "call_tool")
        (some [ (strOf "tool_name", .jstr tool_name),
                (strOf "arguments", .jobj params) ])
  | .listTools => connect_and_execute o (strOf "list_tools") none
  | .healthCheck =>
    if health_check o then
      .success_response (.jobj
        [ (strOf "status", .jstr (strOf "healthy")),
          (strOf "timestamp", (dictGet params (strOf "timestamp")).getD .null) ])
    else
      .error_response (.jstr (strOf "MCP server unhealthy"))
        (.ofStr (strOf "HEALTH_CHECK_FAILED"))

/-- `AWSApiMCPAdapter.handle_request`: extract the routing triple, process
parameters, look up a handler (404 envelope when none), execute it and
format the success or error envelope (`result.data or {}` for the
payload). The defensive top-level catch of the source is unreachable in
the model, whose steps are total. -/
def handle_request (o : MCPOracle) (now : Nat) (ev : BedrockEvent) : JVal :=
  let info := extract_request_info ev
  let action_group := info.1
  let api_path := info.2.1
  let http_method := info.2.2
  let params := process_parameters ev now
  match get_handler api_path with
  | none => format_not_found_response action_group api_path http_method
  | some h =>
    let result := handler_handle h o params
    if result.success then
      format_success_response action_group api_path http_method
        (match result.data with
          | none => .jobj []
          | some d => if pyTruthy d then d else .jobj [])
    else format_handler_error_response action_group api_path http_method result

/-- The fixed whole-call deadline `lambda_handler` wraps around
`adapter.handle_request` — `asyncio.wait_for(..., timeout=20.0)` in
`lambda_function.py` — in the same units as the configured timeouts. -/
def LAMBDA_GLOBAL_TIMEOUT : Nat := 20

/-- The `AWSApiMCPAdapterConfig` dataclass of `config.py`. -/
structure AWSApiMCPAdapterConfig where
  mcp_server_url : Str
  connection_timeout : Nat
  tool_timeout : Nat
  max_retries : Nat
  log_level : Str

/-- The default of the `MCP_CONNECTION_TIMEOUT` environment variable in
`config.py` (the string "10"). -/
def DEFAULT_CONNECTION_TIMEOUT : Nat := 10

/-- The overall deadline applied to one `handle_request` call (and hence
to every `connect_and_execute` within it) under a given configuration:
the source uses the fixed 20-unit Lambda timeout and consults no
configuration value. -/
def handle_request_deadline (_config : AWSApiMCPAdapterConfig) : Nat := LAMBDA_GLOBAL_TIMEOUT

/-- How the body of `lambda_handler` resolves: the awaited envelope, the
`asyncio.TimeoutError` of the 20-unit deadline, a `ConfigurationError`
from adapter construction, or any other exception. -/
inductive LambdaOutcome where
  | completed (resp : JVal)
  | timedOut
  | configError (msg : Str)
  | fatal (msg : Str)

/-- `lambda_function._create_configuration_error_response`. -/
def create_configuration_error_response (ev : BedrockEvent) (_error_message : Str) : JVal :=
  format_error_response (ev.actionGroup.getD []) (ev.apiPath.getD [])
    (ev.httpMethod.getD []) (strOf "Service configuration error") 500

/-- `lambda_function._create_fatal_error_response` (the `error_message`
argument is ignored by the source: the body always carries the fixed
string "Internal server error"). -/
def create_fatal_error_response (ev : BedrockEvent) (_error_message : Str) : JVal :=
  format_error_response (ev.actionGroup.getD []) (ev.apiPath.getD [])
    (ev.httpMethod.getD []) (strOf "Internal server error") 500

/-- `lambda_function.lambda_handler`'s dispatch on how the wrapped
`handle_request` call resolved; on deadline expiry the source passes
"Function timeout reaching MCP server" to the fatal formatter (which
ignores it). -/
def lambda_handler (ev : BedrockEvent) (outcome : LambdaOutcome) : JVal :=
  match outcome with
  | .completed resp => resp
  | .configError m => create_configuration_error_response ev m
  | .timedOut => create_fatal_error_response ev (strOf "Function timeout reaching MCP server")
  | .fatal m => create_fatal_error_response ev m

lemma dictGet_append_right {α : Type} (d : List (Str × α)) (k : Str) (v : α)
    (h : dictGet d k = none) : dictGet (d ++ [(k, v)]) k = some v := by
  induction d with
  | nil => simp [dictGet]
  | cons p t ih =>
    obtain ⟨k1, v1⟩ := p
    by_cases hk : k1 = k
    · rw [dictGet, if_pos hk] at h
      exact absurd h (by simp)
    · rw [dictGet, if_neg hk] at h
      rw [List.cons_append, dictGet, if_neg hk]
      exact ih h

lemma dictGet_dictInsert {α : Type} (k : Str) (v : α) (d : List (Str × α)) :
    dictGet (dictInsert k v d) k = some v := by
  unfold dictInsert
  by_cases hp : (dictGet d k).isSome
  · rw [if_pos hp]
    induction d with
    | nil => simp [dictGet] at hp
    | cons p t ih =>
      obtain ⟨k1, v1⟩ := p
      by_cases hk : k1 = k
      · simp only [List.map_cons, if_pos hk]
        rw [dictGet, if_pos rfl]
      · simp only [List.map_cons, if_neg hk]
        rw [dictGet, if_neg hk]
        rw [dictGet, if_neg hk] at hp
        exact ih hp
  · rw [if_neg hp]
    exact dictGet_append_right d k v (by cases hd : dictGet d k with
      | none => rfl
      | some w => rw [hd] at hp; simp at hp)

lemma dictGet_dictInsert_ne {α : Type} (k key : Str) (v : α) (d : List (Str × α))
    (h : k ≠ key) : dictGet (dictInsert k v d) key = dictGet d key := by
  unfold dictInsert
  by_cases hp : (dictGet d k).isSome
  · rw [if_pos hp]
    induction d with
    | nil => rfl
    | cons p t ih =>
      obtain ⟨k1, v1⟩ := p
      by_cases hk : k1 = k
      · simp only [List.map_cons, if_pos hk]
        rw [dictGet, dictGet, if_neg h, if_neg (hk ▸ h)]
        by_cases hq : (dictGet t k).isSome
        · exact ih hq
        · subst hk
          cases ht : dictGet t key with
          | none =>
            rw [show dictGet (t.map fun p => if p.1 = k1 then (k1, v) else p) key
                = dictGet t key from ?_, ht]
            clear ih hp hq ht
            induction t with
            | nil => rfl
            | cons q u ihq =>
              obtain ⟨k2, v2⟩ := q
              by_cases hk2 : k2 = k1
              · simp only [List.map_cons, if_pos hk2]
                rw [dictGet, dictGet, if_neg h, if_neg (hk2 ▸ h)]
                exact ihq
              · simp only [List.map_cons, if_neg hk2]
                rw [dictGet, dictGet]
                by_cases hk3 : k2 = key
                · rw [if_pos hk3, if_pos hk3]
                · rw [if_neg hk3, if_neg hk3]
                  exact ihq
          | some w =>
            rw [show dictGet (t.map fun p => if p.1 = k1 then (k1, v) else p) key
                = dictGet t key from ?_, ht]
            clear ih hp hq ht
            induction t with
            | nil => rfl
            | cons q u ihq =>
              obtain ⟨k2, v2⟩ := q
              by_cases hk2 : k2 = k1
              · simp only [List.map_cons, if_pos hk2]
                rw [dictGet, dictGet, if_neg h, if_neg (hk2 ▸ h)]
                exact ihq
              · simp only [List.map_cons, if_neg hk2]
                rw [dictGet, dictGet]
                by_cases hk3 : k2 = key
                · rw [if_pos hk3, if_pos hk3]
                · rw [if_neg hk3, if_neg hk3]
                  exact ihq
      · simp only [List.map_cons, if_neg hk]
        rw [dictGet, dictGet]
        rw [dictGet, if_neg hk] at hp
        by_cases hk3 : k1 = key
        · rw [if_pos hk3, if_pos hk3]
        · rw [if_neg hk3, if_neg hk3]
          exact ih hp
  · rw [if_neg hp]
    induction d with
    | nil => simp [dictGet, if_neg h]
    | cons p t ih =>
      obtain ⟨k1, v1⟩ := p
      rw [List.cons_append, dictGet, dictGet]
      by_cases hk3 : k1 = key
      · rw [if_pos hk3, if_pos hk3]
      · rw [if_neg hk3, if_neg hk3]
        rw [dictGet] at hp
        by_cases hk4 : k1 = k
        · rw [if_pos hk4] at hp
          simp at hp
        · rw [if_neg hk4] at hp
          exact ih hp

/-- C2: for every Failure result reaching the Orchestrator, the envelope
status is exactly 400 for ValidationError, 502 for ConnectionError, 503
for RemoteServerError (`MCP_SERVER_ERROR`), 500 for ProcessingError and
500 for any other tag (a dynamic string tag or a missing tag), and the
body message is the fixed generic string for that kind — independent of
the internal failure message `e`, which never reaches the envelope. -/
theorem c2_error_kind_mapping :
    (∀ ag ap hm d e,
      format_handler_error_response ag ap hm ⟨false, d, e, some (.ofType .validation_error)⟩
        = format_error_response ag ap hm (strOf "Invalid request parameters") 400) ∧
    (∀ ag ap hm d e,
      format_handler_error_response ag ap hm ⟨false, d, e, some (.ofType .connection_error)⟩
        = format_error_response ag ap hm (strOf "Service temporarily unavailable") 502) ∧
    (∀ ag ap hm d e,
      format_handler_error_response ag ap hm ⟨false, d, e, some (.ofType .mcp_server_error)⟩
        = format_error_response ag ap hm (strOf "External service error") 503) ∧
    (∀ ag ap hm d e,
      format_handler_error_response ag ap hm ⟨false, d, e, some (.ofType .processing_error)⟩
        = format_error_response ag ap hm (strOf "Request processing failed") 500) ∧
    (∀ ag ap hm d e s,
      format_handler_error_response ag ap hm ⟨false, d, e, some (.ofStr s)⟩
        = format_error_response ag ap hm (strOf "Internal server error") 500) ∧
    (∀ ag ap hm d e,
      format_handler_error_response ag ap hm ⟨false, d, e, none⟩
        = format_error_response ag ap hm (strOf "Internal server error") 500) :=
  ⟨fun _ _ _ _ _ => rfl, fun _ _ _ _ _ => rfl, fun _ _ _ _ _ => rfl,
    fun _ _ _ _ _ => rfl, fun _ _ _ _ _ _ => rfl, fun _ _ _ _ _ => rfl⟩

/-- C8: `format_success_response` yields the envelope with messageVersion
"1.0", httpStatusCode 200, actionGroup/apiPath/httpMethod echoed from the
inputs, and under `responseBody → application/json → body` a compact-JSON
string that parses back to exactly the payload. -/
theorem c8_format_success_round_trip (ag ap hm : Str) (d : JVal) :
    jget (format_success_response ag ap hm d) (strOf "messageVersion")
      = some (.jstr (strOf "1.0")) ∧
    ∃ r, jget (format_success_response ag ap hm d) (strOf "response") = some r ∧
      jget r (strOf "actionGroup") = some (.jstr ag) ∧
      jget r (strOf "apiPath") = some (.jstr ap) ∧
      jget r (strOf "httpMethod") = some (.jstr hm) ∧
      jget r (strOf "httpStatusCode") = some (.jint 200) ∧
      ∃ body : Str,
        ((jget r (strOf "responseBody")).bind
            (fun rb => jget rb (strOf "application/json"))).bind
            (fun aj => jget aj (strOf "body")) = some (.jstr body) ∧
        parseJson body = some d := by
  constructor
  · rfl
  · exact ⟨_, rfl, rfl, rfl, rfl, rfl, serialize d, rfl, parseJson_serialize d⟩

lemma boolean_fields_not_converters {name : Str} (h : name ∈ BOOLEAN_FIELDS) :
    name ∉ TYPE_CONVERTER_NAMES := by
  fin_cases h <;> decide

/-- C6: for a parameter whose name is in the boolean-field set, the stored
value is `convert_to_boolean` of the raw value; strings equal
case-insensitively to "true"/"1"/"yes" become `true`, strings equal
case-insensitively to "false"/"0"/"no" become `false`, any other string
and any non-string value are stored unchanged. -/
theorem c6_boolean_coercion (name : Str) (hbf : name ∈ BOOLEAN_FIELDS) (v : JVal) (d : Dict) :
    dictGet (convert_and_store_param name v d) name = some (convert_to_boolean v) ∧
    (∀ s : Str, (s.map Char.toLower = strOf "true" ∨ s.map Char.toLower = strOf "1"
        ∨ s.map Char.toLower = strOf "yes") → convert_to_boolean (.jstr s) = .jbool true) ∧
    (∀ s : Str, (s.map Char.toLower = strOf "false" ∨ s.map Char.toLower = strOf "0"
        ∨ s.map Char.toLower = strOf "no") → convert_to_boolean (.jstr s) = .jbool false) ∧
    (∀ s : Str,
      ¬(s.map Char.toLower = strOf "true" ∨ s.map Char.toLower = strOf "1"
        ∨ s.map Char.toLower = strOf "yes") →
      ¬(s.map Char.toLower = strOf "false" ∨ s.map Char.toLower = strOf "0"
        ∨ s.map Char.toLower = strOf "no") →
      convert_to_boolean (.jstr s) = .jstr s) ∧
    (∀ w : JVal, (∀ s : Str, w ≠ .jstr s) → convert_to_boolean w = w) := by
  refine ⟨?_, ?_, ?_, ?_, ?_⟩
  · rw [convert_and_store_param, if_neg (boolean_fields_not_converters hbf), if_pos hbf]
    exact dictGet_dictInsert name (convert_to_boolean v) d
  · intro s hs
    rw [convert_to_boolean]
    rw [if_pos hs]
  · intro s hs2
    have hs1 : ¬(s.map Char.toLower = strOf "true" ∨ s.map Char.toLower = strOf "1"
        ∨ s.map Char.toLower = strOf "yes") := by
      rcases hs2 with h | h | h <;> rw [h] <;> decide
    rw [convert_to_boolean]
    rw [if_neg hs1, if_pos hs2]
  · intro s hs1 hs2
    rw [convert_to_boolean]
    rw [if_neg hs1, if_neg hs2]
  · intro w hw
    cases w with
    | jstr s => exact absurd rfl (hw s)
    | null => rfl
    | jbool b => rfl
    | jint n => rfl
    | jarr xs => rfl
    | jobj kvs => rfl

/-- C6 witness: the boolean field `dry_run` with the string "TRUE" is
stored as the boolean `true`. -/
theorem c6_boolean_coercion_witness :
    strOf "dry_run" ∈ BOOLEAN_FIELDS ∧
    dictGet (convert_and_store_param (strOf "dry_run") (.jstr (strOf "TRUE")) [])
      (strOf "dry_run") = some (.jbool true) := by
  have h := c6_boolean_coercion (strOf "dry_run") (by decide) (.jstr (strOf "TRUE")) []
  refine ⟨by decide, ?_⟩
  rw [h.1, h.2.1 (strOf "TRUE") (Or.inl (by decide))]

/-- C7: in the legacy generic tool-call, an absent parameter map or one
without a `tool_name` key yields the ValidationError "Tool name is
required"; otherwise the session's tool invocation is applied to the
`arguments` sub-map (default empty), and an `ok` result with content
`items` (possibly empty) yields a Success whose content list maps each
item to `{text: item.text}`. -/
theorem c7_legacy_call_tool (sess : LegacySession) :
    (∀ ps : Option Dict,
      (ps = none ∨ ∃ d, ps = some d ∧ (dictGet d (strOf "tool_name")).isNone) →
      call_tool_legacy sess ps
        = .error_response (.jstr (strOf "Tool name is required"))
            (.ofType .validation_error)) ∧
    (∀ (d : Dict) (tn : JVal) (items : List ContentItem),
      dictGet d (strOf "tool_name") = some tn →
      sess.callTool tn ((dictGet d (strOf "arguments")).getD (.jobj [])) = .ok ⟨items⟩ →
      call_tool_legacy sess (some d)
        = .success_response (.jobj
            [ (strOf "content", .jarr (items.map (fun item =>
                .jobj [ (strOf "text", .jstr item.text) ]))) ])) ∧
    (∀ (d : Dict) (tn : JVal) (msg : Str),
      dictGet d (strOf "tool_name") = some tn →
      sess.callTool tn ((dictGet d (strOf "arguments")).getD (.jobj [])) = .error msg →
      call_tool_legacy sess (some d)
        = .error_response (.jstr (strOf "Tool execution failed on MCP server"))
            (.ofType .mcp_server_error)) := by
  refine ⟨?_, ?_, ?_⟩
  · rintro ps (rfl | ⟨d, rfl, hnone⟩)
    · rfl
    · rw [call_tool_legacy]
      rw [if_pos (Or.inr hnone)]
  · intro d tn items hget hcall
    have hne : ¬(d.isEmpty ∨ (dictGet d (strOf "tool_name")).isNone) := by
      rintro (he | hn)
      · cases d with
        | nil => rw [show dictGet ([] : Dict) (strOf "tool_name") = none from rfl] at hget
                 exact absurd hget (by simp)
        | cons p t => simp [List.isEmpty] at he
      · rw [hget] at hn
        simp at hn
    rw [call_tool_legacy, if_neg hne, hget]
    simp only [Option.getD_some]
    rw [hcall]
  · intro d tn msg hget hcall
    have hne : ¬(d.isEmpty ∨ (dictGet d (strOf "tool_name")).isNone) := by
      rintro (he | hn)
      · cases d with
        | nil => rw [show dictGet ([] : Dict) (strOf "tool_name") = none from rfl] at hget
                 exact absurd hget (by simp)
        | cons p t => simp [List.isEmpty] at he
      · rw [hget] at hn
        simp at hn
    rw [call_tool_legacy, if_neg hne, hget]
    simp only [Option.getD_some]
    rw [hcall]

/-- C7 witness: a session whose tool invocation returns one content item:
the missing-name path yields the validation failure and the generic call
yields the mapped content list. -/
theorem c7_legacy_call_tool_witness :
    call_tool_legacy ⟨.ok [], fun _ _ => .ok ⟨[⟨strOf "hi"⟩]⟩⟩ none
      = .error_response (.jstr (strOf "Tool name is required")) (.ofType .validation_error) ∧
    call_tool_legacy ⟨.ok [], fun _ _ => .ok ⟨[⟨strOf "hi"⟩]⟩⟩
        (some [(strOf "tool_name", .jstr (strOf "t"))])
      = .success_response (.jobj
          [ (strOf "content", .jarr [.jobj [(strOf "text", .jstr (strOf "hi"))]]) ]) := by
  have h := c7_legacy_call_tool ⟨.ok [], fun _ _ => .ok ⟨[⟨strOf "hi"⟩]⟩⟩
  exact ⟨h.1 none (Or.inl rfl),
    h.2.1 [(strOf "tool_name", .jstr (strOf "t"))] (.jstr (strOf "t")) [⟨strOf "hi"⟩] rfl rfl⟩

/-- C5 counterexample: an inbound event that carries `requestId` with the
empty string (and no context), as Python `event.get("requestId", ...)`
returns the present empty value, yields a synthesized context whose
`request_id` is the empty string — refuting "request_id is non-empty" for
this event. -/
theorem c5_context_counterexample :
    dictGet (process_parameters
        ⟨none, none, none, [], none, some [], none, none, none⟩ 0) (strOf "ctx")
      = some (create_default_context
          ⟨none, none, none, [], none, some [], none, none, none⟩ 0) ∧
    jget (create_default_context
        ⟨none, none, none, [], none, some [], none, none, none⟩ 0) (strOf "request_id")
      = some (.jstr []) :=
  ⟨rfl, rfl⟩

/-- C5 (amended): for an event whose processed parameters carry no `ctx`
key, `process_parameters` stores the synthesized context; its source is
the fixed tag "bedrock-agent", its session_id and agent_id take the fixed
defaults when the event fields are absent, and its request_id is non-empty
provided any `requestId`/`messageId` value present in the event is
non-empty (the timestamp fallback is always non-empty). -/
theorem c5_context_synthesis (ev : BedrockEvent) (now : Nat)
    (hnoctx : (dictGet (match ev.requestBody with
        | none => process_parameter_list ev.parameters []
        | some rb => process_request_body rb (process_parameter_list ev.parameters []))
        (strOf "ctx")).isSome = false) :
    dictGet (process_parameters ev now) (strOf "ctx")
      = some (create_default_context ev now) ∧
    jget (create_default_context ev now) (strOf "source")
      = some (.jstr (strOf "bedrock-agent")) ∧
    (ev.sessionId = none →
      jget (create_default_context ev now) (strOf "session_id")
        = some (.jstr (strOf "default-session"))) ∧
    ((ev.agent = none ∨ ∃ a, ev.agent = some a ∧ a.id = none) →
      jget (create_default_context ev now) (strOf "agent_id")
        = some (.jstr (strOf "unknown-agent"))) ∧
    ∃ rid : Str,
      jget (create_default_context ev now) (strOf "request_id") = some (.jstr rid) ∧
      ((∀ s, ev.requestId = some s → s ≠ []) → (∀ s, ev.messageId = some s → s ≠ []) →
        rid ≠ []) := by
  refine ⟨?_, rfl, ?_, ?_, ?_⟩
  · rw [process_parameters]
    rw [if_neg (by rw [hnoctx]; simp)]
    exact dictGet_dictInsert _ _ _
  · intro hs
    rw [create_default_context, hs]
    rfl
  · rintro (ha | ⟨⟨aid⟩, ha, hid⟩)
    · rw [create_default_context, ha]
      rfl
    · obtain rfl : aid = none := hid
      rw [create_default_context, ha]
      rfl
  · refine ⟨ev.requestId.getD (ev.messageId.getD (strOf "req-" ++ serNat now)), rfl, ?_⟩
    intro h1 h2
    cases hr : ev.requestId with
    | some s => simpa [hr] using h1 s hr
    | none =>
      cases hm : ev.messageId with
      | some s => simpa [hr, hm] using h2 s hm
      | none =>
        simp only [Option.getD_none]
        rw [show strOf "req-" = 'r' :: 'e' :: 'q' :: '-' :: [] from rfl]
        simp

/-- C5 witness: the empty event (no fields at all) gets a synthesized
context with the fixed source tag and both defaults, and a non-empty
request_id from the timestamp fallback. -/
theorem c5_context_synthesis_witness :
    dictGet (process_parameters ⟨none, none, none, [], none, none, none, none, none⟩ 7)
        (strOf "ctx")
      = some (create_default_context
          ⟨none, none, none, [], none, none, none, none, none⟩ 7) ∧
    jget (create_default_context ⟨none, none, none, [], none, none, none, none, none⟩ 7)
        (strOf "source") = some (.jstr (strOf "bedrock-agent")) ∧
    jget (create_default_context ⟨none, none, none, [], none, none, none, none, none⟩ 7)
        (strOf "session_id") = some (.jstr (strOf "default-session")) ∧
    jget (create_default_context ⟨none, none, none, [], none, none, none, none, none⟩ 7)
        (strOf "agent_id") = some (.jstr (strOf "unknown-agent")) := by
  have h := c5_context_synthesis ⟨none, none, none, [], none, none, none, none, none⟩ 7 rfl
  exact ⟨h.1, h.2.1, h.2.2.1 rfl, h.2.2.2.1 (Or.inl rfl)⟩

/-- C3 counterexample: with the default connection timeout (10), the only
whole-call deadline in the code — the fixed 20-unit Lambda timeout — is
not `connection_timeout + 5`; and its expiry yields the 500 envelope whose
body message is the fixed "Internal server error", not a 502/ConnectionError
envelope saying "session timeout". -/
theorem c3_timeout_counterexample :
    handle_request_deadline
        ⟨strOf "http://x", DEFAULT_CONNECTION_TIMEOUT, 30, 3, strOf "INFO"⟩
      ≠ DEFAULT_CONNECTION_TIMEOUT + 5 ∧
    (jget (lambda_handler ⟨none, none, none, [], none, none, none, none, none⟩
        LambdaOutcome.timedOut) (strOf "response")).bind
        (fun r => jget r (strOf "httpStatusCode")) = some (.jint 500) ∧
    ¬((jget (lambda_handler ⟨none, none, none, [], none, none, none, none, none⟩
        LambdaOutcome.timedOut) (strOf "response")).bind
        (fun r => jget r (strOf "httpStatusCode")) = some (.jint 502)) ∧
    ((jget (lambda_handler ⟨none, none, none, [], none, none, none, none, none⟩
        LambdaOutcome.timedOut) (strOf "response")).bind
        (fun r => jget r (strOf "responseBody"))).bind
        (fun rb => jget rb (strOf "application/json"))
      = some (.jobj [(strOf "body",
          .jstr (serialize (.jobj [(strOf "error",
            .jstr (strOf "Internal server error"))])))]) ∧
    strOf "Internal server error" ≠ strOf "session timeout" := by
  refine ⟨by decide, rfl, ?_, rfl, by decide⟩
  intro h
  rw [show (jget (lambda_handler ⟨none, none, none, [], none, none, none, none, none⟩
      LambdaOutcome.timedOut) (strOf "response")).bind
      (fun r => jget r (strOf "httpStatusCode")) = some (.jint 500) from rfl] at h
  simp at h

/-- C3 (amended): the overall deadline wrapped around each
`handle_request` call (hence around every `connect_and_execute` it makes)
is the fixed 20 units, whatever the configured connection timeout; expiry
of that deadline yields the well-formed 500 envelope with the fixed
message "Internal server error" rather than an indefinitely hanging
call. -/
theorem c3_lambda_timeout (config : AWSApiMCPAdapterConfig) (ev : BedrockEvent) :
    handle_request_deadline config = 20 ∧
    lambda_handler ev .timedOut
      = format_error_response (ev.actionGroup.getD []) (ev.apiPath.getD [])
          (ev.httpMethod.getD []) (strOf "Internal server error") 500 :=
  ⟨rfl, rfl⟩

lemma casp_eq_insert (n : Str) (v : JVal) :
    ∃ w, ∀ d, convert_and_store_param n v d = dictInsert n w d := by
  unfold convert_and_store_param
  by_cases h1 : n ∈ TYPE_CONVERTER_NAMES
  · cases hp : pyInt v with
    | some m => exact ⟨.jint m, fun d => by rw [if_pos h1]⟩
    | none => exact ⟨v, fun d => by rw [if_pos h1]⟩
  · by_cases h2 : n ∈ BOOLEAN_FIELDS
    · exact ⟨convert_to_boolean v, fun d => by rw [if_neg h1, if_pos h2]⟩
    · exact ⟨v, fun d => by rw [if_neg h1, if_neg h2]⟩

lemma dictGet_ppl (l : List ParamEntry) : ∀ (d : Dict) (name : Str),
    dictGet (process_parameter_list l d) name
      = match dictGet (process_parameter_list l []) name with
        | some w => some w
        | none => dictGet d name := by
  induction l with
  | nil =>
    intro d name
    simp [process_parameter_list, dictGet]
  | cons e t ih =>
    intro d name
    cases e with
    | malformed =>
      simp only [process_parameter_list]
      exact ih d name
    | entry n v =>
      simp only [process_parameter_list]
      obtain ⟨u, hu⟩ := casp_eq_insert n v
      rw [hu, hu]
      rw [ih (dictInsert n u d) name, ih (dictInsert n u []) name]
      by_cases hk : n = name
      · subst hk
        rw [dictGet_dictInsert, dictGet_dictInsert]
        cases hppl : dictGet (process_parameter_list t []) n <;> simp
      · rw [dictGet_dictInsert_ne _ _ _ _ hk, dictGet_dictInsert_ne _ _ _ _ hk]
        rw [show dictGet ([] : Dict) name = none from rfl]
        cases hppl : dictGet (process_parameter_list t []) name <;> simp

/-- C10: when a parameter name receives a value both from the flat
`parameters` list and from the request body's JSON properties, the stored
value in the processed parameters is the one the request body produced
(the flat list is processed first and the body second, so the later store
wins). -/
theorem c10_body_overwrites_flat (ev : BedrockEvent) (now : Nat) (rb : RequestBody)
    (props : List ParamEntry) (name : Str) (w v1 : JVal)
    (hrb : ev.requestBody = some rb)
    (hshape : rb.jsonContent = some (.withProps props)
      ∨ rb.jsonContent = some (.direct props))
    (_hflat : dictGet (process_parameter_list ev.parameters []) name = some v1)
    (hbody : dictGet (process_parameter_list props []) name = some w) :
    dictGet (process_parameters ev now) name = some w := by
  have hmid : dictGet (process_request_body rb (process_parameter_list ev.parameters []))
      name = some w := by
    rcases hshape with h | h <;>
      · unfold process_request_body
        rw [h, dictGet_ppl, hbody]
  rw [process_parameters, hrb]
  by_cases hctx : (dictGet (process_request_body rb (process_parameter_list ev.parameters []))
      (strOf "ctx")).isSome
  · rw [if_pos hctx]
    exact hmid
  · rw [if_neg hctx]
    have hne : strOf "ctx" ≠ name := by
      intro e
      rw [e] at hctx
      rw [hmid] at hctx
      simp at hctx
    rw [dictGet_dictInsert_ne _ _ _ _ hne]
    exact hmid

/-- C10 witness: the name `x` set to "1" in the flat list and to "2" in
the request body's direct JSON list ends up stored as "2". -/
theorem c10_body_overwrites_flat_witness :
    dictGet (process_parameters
        ⟨none, none, none, [.entry (strOf "x") (.jstr (strOf "1"))],
          some ⟨some (.direct [.entry (strOf "x") (.jstr (strOf "2"))])⟩,
          none, none, none, none⟩ 0) (strOf "x")
      = some (.jstr (strOf "2")) := by
  exact c10_body_overwrites_flat
    ⟨none, none, none, [.entry (strOf "x") (.jstr (strOf "1"))],
      some ⟨some (.direct [.entry (strOf "x") (.jstr (strOf "2"))])⟩,
      none, none, none, none⟩ 0
    ⟨some (.direct [.entry (strOf "x") (.jstr (strOf "2"))])⟩
    [.entry (strOf "x") (.jstr (strOf "2"))] (strOf "x")
    (.jstr (strOf "2")) (.jstr (strOf "1")) rfl (Or.inr rfl) rfl rfl

/-- C9: when an event's apiPath matches no registered route (neither raw
nor normalized — exactly `get_handler` returning nothing), the
orchestrator returns the 404 envelope whose body is the JSON object
`{"error": "Unknown API path: <path>"}` built from the raw apiPath; the
model is total, so no exception escapes. -/
theorem c9_unknown_path_404 (o : MCPOracle) (now : Nat) (ev : BedrockEvent)
    (hmiss : get_handler (ev.apiPath.getD []) = none) :
    handle_request o now ev
      = format_error_response (ev.actionGroup.getD []) (ev.apiPath.getD [])
          (ev.httpMethod.getD [])
          (strOf "Unknown API path: " ++ ev.apiPath.getD []) 404 ∧
    (jget (handle_request o now ev) (strOf "response")).bind
        (fun r => jget r (strOf "httpStatusCode")) = some (.jint 404) ∧
    ((jget (handle_request o now ev) (strOf "response")).bind
        (fun r => jget r (strOf "responseBody"))).bind
        (fun rb => jget rb (strOf "application/json"))
      = some (.jobj [(strOf "body",
          .jstr (serialize (.jobj [(strOf "error",
            .jstr (strOf "Unknown API path: " ++ ev.apiPath.getD []))])))]) := by
  have hmain : handle_request o now ev
      = format_error_response (ev.actionGroup.getD []) (ev.apiPath.getD [])
          (ev.httpMethod.getD [])
          (strOf "Unknown API path: " ++ ev.apiPath.getD []) 404 := by
    rw [handle_request]
    simp only [extract_request_info]
    rw [hmiss]
    rfl
  refine ⟨hmain, ?_, ?_⟩ <;> rw [hmain] <;> rfl

/-- C9 witness: the spec's scenario-B path `/unknown-path` resolves to no
handler and produces the 404 envelope. -/
theorem c9_unknown_path_404_witness :
    get_handler (strOf "/unknown-path") = none ∧
    handle_request ⟨⟨none, .resp 200 .null, .resp 200 .null⟩, .initTimeout⟩ 0
        ⟨none, some (strOf "/unknown-path"), none, [], none, none, none, none, none⟩
      = format_error_response [] (strOf "/unknown-path") []
          (strOf "Unknown API path: " ++ strOf "/unknown-path") 404 := by
  refine ⟨rfl, ?_⟩
  exact (c9_unknown_path_404 ⟨⟨none, .resp 200 .null, .resp 200 .null⟩, .initTimeout⟩ 0
    ⟨none, some (strOf "/unknown-path"), none, [], none, none, none, none, none⟩ rfl).1

/-- A response that is either a success or a Failure carrying one of the
classified `ErrorType` members. -/
def classifiedOrSuccess (r : MCPResponse) : Prop :=
  r.success = false → ∃ t : ErrorType, r.error_type = some (.ofType t)

lemma classified_error (e : JVal) (t : ErrorType) :
    classifiedOrSuccess (.error_response e (.ofType t)) := fun _ => ⟨t, rfl⟩

lemma classified_success (d : JVal) : classifiedOrSuccess (.success_response d) := by
  intro hfail
  exact absurd hfail (by simp [MCPResponse.success_response])

lemma classified_call_jsonrpc (o : DirectOracle) (tn : Str) (ps : Option Dict) :
    classifiedOrSuccess (call_jsonrpc_http_endpoint o tn ps) := by
  unfold call_jsonrpc_http_endpoint
  repeat' split
  all_goals first
    | exact classified_error _ _
    | exact classified_success _

lemma classified_list_tools (sess : LegacySession) :
    classifiedOrSuccess (list_tools_legacy sess) := by
  unfold list_tools_legacy
  repeat' split
  all_goals first
    | exact classified_error _ _
    | exact classified_success _

lemma classified_call_tool (sess : LegacySession) (ps : Option Dict) :
    classifiedOrSuccess (call_tool_legacy sess ps) := by
  unfold call_tool_legacy
  repeat' split
  all_goals first
    | exact classified_error _ _
    | exact classified_success _

lemma classified_legacy (o : LegacyOracle) (action : Str) (ps : Option Dict) :
    classifiedOrSuccess (connect_and_execute_legacy o action ps) := by
  cases o with
  | connectRaise m => exact classified_error _ _
  | initRaise m => exact classified_error _ _
  | initTimeout => exact classified_error _ _
  | ready sess =>
    simp only [connect_and_execute_legacy]
    repeat' split
    all_goals first
      | exact classified_error _ _
      | exact classified_list_tools _
      | exact classified_call_tool _ _

/-- C1: `connect_and_execute` is a total function of the operation name,
the parameter map and the network oracle (which ranges over session-id
fetch failures, non-200 initializes, non-200 tool calls, network
exceptions, legacy handshake timeouts and unknown legacy actions), so it
always returns an `MCPResponse`; and whenever that response is a Failure,
its error tag is one of the classified `ErrorType` members. -/
theorem c1_never_raises_classified (o : MCPOracle) (tool_name : Str)
    (parameters : Option Dict)
    (hfail : (connect_and_execute o tool_name parameters).success = false) :
    ∃ t : ErrorType,
      (connect_and_execute o tool_name parameters).error_type = some (.ofType t) := by
  revert hfail
  show classifiedOrSuccess (connect_and_execute o tool_name parameters)
  unfold connect_and_execute
  split
  · exact classified_call_jsonrpc _ _ _
  · exact classified_legacy _ _ _

/-- C1 witness: a mapped tool against a world whose session-id fetch
fails resolves to a Failure carrying the ConnectionError kind. -/
theorem c1_never_raises_classified_witness :
    (connect_and_execute ⟨⟨none, .resp 200 .null, .resp 200 .null⟩, .initTimeout⟩
      (strOf "describe_log_groups") none).success = false ∧
    ∃ t : ErrorType,
      (connect_and_execute ⟨⟨none, .resp 200 .null, .resp 200 .null⟩, .initTimeout⟩
        (strOf "describe_log_groups") none).error_type = some (.ofType t) :=
  ⟨rfl, c1_never_raises_classified ⟨⟨none, .resp 200 .null, .resp 200 .null⟩, .initTimeout⟩
    (strOf "describe_log_groups") none rfl⟩

lemma rAF_eq_len (pat rep : Str) :
    ∀ N s f, s.length ≤ N → s.length ≤ f →
      replaceAllF pat rep f s = replaceAllF pat rep s.length s := by
  intro N
  induction N using Nat.strong_induction_on with
  | _ N IH =>
    intro s f hN hf
    cases s with
    | nil => cases f <;> rfl
    | cons c t =>
      cases f with
      | zero => simp only [List.length_cons] at hf; omega
      | succ f =>
        simp only [List.length_cons] at hN hf ⊢
        simp only [replaceAllF]
        by_cases hc : pat ≠ [] ∧ pat <+: (c :: t)
        · rw [if_pos hc, if_pos hc]
          have hpl : 1 ≤ pat.length := by
            rcases hc with ⟨h1, -⟩
            cases hp : pat with
            | nil => exact absurd hp h1
            | cons a b => simp [hp]
          have hdl : ((c :: t).drop pat.length).length ≤ t.length := by
            rw [List.length_drop, List.length_cons]
            omega
          rw [IH t.length (by omega) ((c :: t).drop pat.length) f (by omega) (by omega),
            IH t.length (by omega) ((c :: t).drop pat.length) t.length (by omega) (by omega)]
        · rw [if_neg hc, if_neg hc]
          rw [IH t.length (by omega) t f (by omega) (by omega)]

lemma rAF_noocc (pat rep : Str) :
    ∀ s f, ¬ pat <:+: s → replaceAllF pat rep f s = s := by
  intro s
  induction s with
  | nil => intro f h; cases f <;> rfl
  | cons c t ih =>
    intro f h
    cases f with
    | zero => rfl
    | succ f =>
      simp only [replaceAllF]
      rw [if_neg]
      · rw [ih f (fun hi => h (List.infix_cons hi))]
      · rintro ⟨-, hp⟩
        exact h hp.isInfix

lemma pyReplace_noocc (pat rep s : Str) (h : ¬ pat <:+: s) : pyReplace s pat rep = s :=
  rAF_noocc pat rep s s.length h

lemma pyReplace_skip (pat rep : Str) (c : Char) (t : Str) (h : ¬ pat <+: (c :: t)) :
    pyReplace (c :: t) pat rep = c :: pyReplace t pat rep := by
  simp only [pyReplace, List.length_cons]
  simp only [replaceAllF]
  rw [if_neg]
  rintro ⟨-, hp⟩
  exact h hp

lemma pyReplace_consume (q : Char) (qt s : Str) :
    pyReplace ((q :: qt) ++ s) (q :: qt) [] = pyReplace s (q :: qt) [] := by
  have hlen : ((q :: qt) ++ s).length = (qt.length + s.length) + 1 := by
    simp [List.length_append]
  simp only [pyReplace]
  rw [hlen, List.cons_append]
  simp only [replaceAllF]
  rw [if_pos ⟨List.cons_ne_nil q qt, List.prefix_append (q :: qt) s⟩]
  simp only [List.nil_append, List.length_cons, List.drop_succ_cons]
  rw [List.drop_left]
  exact rAF_eq_len (q :: qt) [] (qt.length + s.length) s (qt.length + s.length)
    (by omega) (by omega)

lemma singleton_prefix_head (c : Char) (l : Str) (h : [c] <+: l) : l.head? = some c := by
  cases l with
  | nil => simp at h
  | cons x t =>
    rw [List.cons_prefix_cons] at h
    obtain ⟨rfl, -⟩ := h
    rfl

lemma not_prefix_slash_of_headC (pat : Str) (hC : pat.head? = some 'C') (x : Str) :
    ¬ pat <+: ('/' :: x) := by
  cases pat with
  | nil => simp at hC
  | cons a b =>
    intro hp
    rw [List.cons_prefix_cons] at hp
    simp only [List.head?, Option.some.injEq] at hC
    rw [hC] at hp
    exact absurd hp.1 (by decide)

lemma not_infix_slash_cons (pat rest : Str) (hC : pat.head? = some 'C')
    (h : ¬ pat <:+: rest) : ¬ pat <:+: ('/' :: rest) := by
  rw [List.infix_cons_iff]
  rintro (hp | hi)
  · exact not_prefix_slash_of_headC pat hC rest hp
  · exact h hi

lemma not_A2_infix_A_append (rest : Str) (hh : rest.head? ≠ some '/')
    (hocc : ¬ strOf "CloudWatchMCP/" <:+: rest) :
    ¬ strOf "CloudWatchMCP//" <:+: (strOf "CloudWatchMCP/" ++ rest) := by
  have hA2c : strOf "CloudWatchMCP//"
      = 'C' :: 'l' :: 'o' :: 'u' :: 'd' :: 'W' :: 'a' :: 't' :: 'c' :: 'h' :: 'M' :: 'C' :: 'P' :: '/' :: '/' :: ([] : Str) :=
    rfl
  have hshape : strOf "CloudWatchMCP/" ++ rest
      = 'C' :: 'l' :: 'o' :: 'u' :: 'd' :: 'W' :: 'a' :: 't' :: 'c' :: 'h' :: 'M' :: 'C' :: 'P' :: '/' :: rest := rfl
  rw [hshape, hA2c]
  simp only [List.infix_cons_iff]
  rintro (hp | hp | hp | hp | hp | hp | hp | hp | hp | hp | hp | hp | hp | hp | hi)
  case _ =>
    simp [List.cons_prefix_cons] at hp
    exact hh (singleton_prefix_head '/' rest hp)
  case _ => simp [List.cons_prefix_cons] at hp
  case _ => simp [List.cons_prefix_cons] at hp
  case _ => simp [List.cons_prefix_cons] at hp
  case _ => simp [List.cons_prefix_cons] at hp
  case _ => simp [List.cons_prefix_cons] at hp
  case _ => simp [List.cons_prefix_cons] at hp
  case _ => simp [List.cons_prefix_cons] at hp
  case _ => simp [List.cons_prefix_cons] at hp
  case _ => simp [List.cons_prefix_cons] at hp
  case _ => simp [List.cons_prefix_cons] at hp
  case _ => simp [List.cons_prefix_cons] at hp
  case _ => simp [List.cons_prefix_cons] at hp
  case _ => simp [List.cons_prefix_cons] at hp
  case _ =>
    apply hocc
    have hA : strOf "CloudWatchMCP/"
        <:+: ('C' :: 'l' :: 'o' :: 'u' :: 'd' :: 'W' :: 'a' :: 't' :: 'c' :: 'h' :: 'M' :: 'C' :: 'P' :: '/' :: '/' :: ([] : Str)) := by
      decide
    exact List.IsInfix.trans (by decide) hi

lemma lstripSlash_head (rest : Str) (hh : rest.head? ≠ some '/') :
    lstripSlash rest = rest := by
  cases rest with
  | nil => rfl
  | cons c t =>
    have hc : ¬ c = '/' := fun hcc => hh (by simp [hcc])
    simp only [lstripSlash]
    rw [if_neg hc]

lemma normalize_eval (p rest : Str) (k : Nat) (hk : k ≤ 2) (hh : rest.head? ≠ some '/')
    (hrep : pyReplace (pyReplace p (strOf "CloudWatchMCP//") []) (strOf "CloudWatchMCP/") []
      = List.replicate k '/' ++ rest) :
    normalize_path p = '/' :: rest := by
  simp only [normalize_path]
  rw [hrep]
  interval_cases k
  · rw [show List.replicate 0 '/' ++ rest = rest from rfl]
    simp [lstripSlash_head rest hh, hh]
  · rw [show List.replicate 1 '/' ++ rest = '/' :: rest from rfl]
    simp [lstripSlash, lstripSlash_head rest hh, hh]
  · rw [show List.replicate 2 '/' ++ rest = '/' :: '/' :: rest from rfl]
    simp [lstripSlash, lstripSlash_head rest hh, hh]

lemma normalize_path_class (k : Nat) (pre rest : Str) (hk : k ≤ 2)
    (hpre : pre = [] ∨ pre = strOf "CloudWatchMCP/" ∨ pre = strOf "CloudWatchMCP//")
    (hh : rest.head? ≠ some '/')
    (hocc : ¬ strOf "CloudWatchMCP/" <:+: rest) :
    normalize_path (List.replicate k '/' ++ pre ++ rest) = '/' :: rest := by
  have hA : strOf "CloudWatchMCP/" = 'C' :: strOf "loudWatchMCP/" := rfl
  have hA2 : strOf "CloudWatchMCP//" = 'C' :: strOf "loudWatchMCP//" := rfl
  have hocc2 : ¬ strOf "CloudWatchMCP//" <:+: rest := fun h =>
    hocc (List.IsInfix.trans (by decide) h)
  have hoccS1 : ¬ strOf "CloudWatchMCP/" <:+: ('/' :: rest) :=
    not_infix_slash_cons (strOf "CloudWatchMCP/") _ rfl hocc
  have hoccS2 : ¬ strOf "CloudWatchMCP/" <:+: ('/' :: '/' :: rest) :=
    not_infix_slash_cons (strOf "CloudWatchMCP/") _ rfl hoccS1
  have hocc2S1 : ¬ strOf "CloudWatchMCP//" <:+: ('/' :: rest) :=
    not_infix_slash_cons (strOf "CloudWatchMCP//") _ rfl hocc2
  have hocc2S2 : ¬ strOf "CloudWatchMCP//" <:+: ('/' :: '/' :: rest) :=
    not_infix_slash_cons (strOf "CloudWatchMCP//") _ rfl hocc2S1
  have hcore : ¬ strOf "CloudWatchMCP//" <:+: (strOf "CloudWatchMCP/" ++ rest) :=
    not_A2_infix_A_append rest hh hocc
  have hcoreS1 : ¬ strOf "CloudWatchMCP//" <:+: ('/' :: (strOf "CloudWatchMCP/" ++ rest)) :=
    not_infix_slash_cons (strOf "CloudWatchMCP//") _ rfl hcore
  have hcoreS2 :
      ¬ strOf "CloudWatchMCP//" <:+: ('/' :: '/' :: (strOf "CloudWatchMCP/" ++ rest)) :=
    not_infix_slash_cons (strOf "CloudWatchMCP//") _ rfl hcoreS1
  apply normalize_eval _ rest k hk hh
  interval_cases k <;> rcases hpre with rfl | rfl | rfl
  · rw [show List.replicate 0 '/' ++ ([] : Str) ++ rest = rest from rfl,
      show List.replicate 0 '/' ++ rest = rest from rfl]
    rw [pyReplace_noocc _ _ _ hocc2, pyReplace_noocc _ _ _ hocc]
  · rw [show List.replicate 0 '/' ++ strOf "CloudWatchMCP/" ++ rest
        = strOf "CloudWatchMCP/" ++ rest from rfl,
      show List.replicate 0 '/' ++ rest = rest from rfl]
    rw [pyReplace_noocc _ _ _ hcore]
    rw [hA, pyReplace_consume, ← hA]
    rw [pyReplace_noocc _ _ _ hocc]
  · rw [show List.replicate 0 '/' ++ strOf "CloudWatchMCP//" ++ rest
        = strOf "CloudWatchMCP//" ++ rest from rfl,
      show List.replicate 0 '/' ++ rest = rest from rfl]
    rw [hA2, pyReplace_consume, ← hA2]
    rw [pyReplace_noocc _ _ _ hocc2, pyReplace_noocc _ _ _ hocc]
  · rw [show List.replicate 1 '/' ++ ([] : Str) ++ rest = '/' :: rest from rfl,
      show List.replicate 1 '/' ++ rest = '/' :: rest from rfl]
    rw [pyReplace_noocc _ _ _ hocc2S1, pyReplace_noocc _ _ _ hoccS1]
  · rw [show List.replicate 1 '/' ++ strOf "CloudWatchMCP/" ++ rest
        = '/' :: (strOf "CloudWatchMCP/" ++ rest) from rfl,
      show List.replicate 1 '/' ++ rest = '/' :: rest from rfl]
    rw [pyReplace_noocc _ _ _ hcoreS1]
    rw [pyReplace_skip (strOf "CloudWatchMCP/") [] '/' (strOf "CloudWatchMCP/" ++ rest)
      (not_prefix_slash_of_headC (strOf "CloudWatchMCP/") rfl _)]
    rw [hA, pyReplace_consume, ← hA]
    rw [pyReplace_noocc _ _ _ hocc]
  · rw [show List.replicate 1 '/' ++ strOf "CloudWatchMCP//" ++ rest
        = '/' :: (strOf "CloudWatchMCP//" ++ rest) from rfl,
      show List.replicate 1 '/' ++ rest = '/' :: rest from rfl]
    rw [pyReplace_skip (strOf "CloudWatchMCP//") [] '/' (strOf "CloudWatchMCP//" ++ rest)
      (not_prefix_slash_of_headC (strOf "CloudWatchMCP//") rfl _)]
    rw [hA2, pyReplace_consume, ← hA2]
    rw [pyReplace_noocc _ _ _ hocc2]
    rw [pyReplace_noocc _ _ _ hoccS1]
  · rw [show List.replicate 2 '/' ++ ([] : Str) ++ rest = '/' :: '/' :: rest from rfl,
      show List.replicate 2 '/' ++ rest = '/' :: '/' :: rest from rfl]
    rw [pyReplace_noocc _ _ _ hocc2S2, pyReplace_noocc _ _ _ hoccS2]
  · rw [show List.replicate 2 '/' ++ strOf "CloudWatchMCP/" ++ rest
        = '/' :: '/' :: (strOf "CloudWatchMCP/" ++ rest) from rfl,
      show List.replicate 2 '/' ++ rest = '/' :: '/' :: rest from rfl]
    rw [pyReplace_noocc _ _ _ hcoreS2]
    rw [pyReplace_skip (strOf "CloudWatchMCP/") [] '/'
      ('/' :: (strOf "CloudWatchMCP/" ++ rest))
      (not_prefix_slash_of_headC (strOf "CloudWatchMCP/") rfl _)]
    rw [pyReplace_skip (strOf "CloudWatchMCP/") [] '/' (strOf "CloudWatchMCP/" ++ rest)
      (not_prefix_slash_of_headC (strOf "CloudWatchMCP/") rfl _)]
    rw [hA, pyReplace_consume, ← hA]
    rw [pyReplace_noocc _ _ _ hocc]
  · rw [show List.replicate 2 '/' ++ strOf "CloudWatchMCP//" ++ rest
        = '/' :: '/' :: (strOf "CloudWatchMCP//" ++ rest) from rfl,
      show List.replicate 2 '/' ++ rest = '/' :: '/' :: rest from rfl]
    rw [pyReplace_skip (strOf "CloudWatchMCP//") [] '/'
      ('/' :: (strOf "CloudWatchMCP//" ++ rest))
      (not_prefix_slash_of_headC (strOf "CloudWatchMCP//") rfl _)]
    rw [pyReplace_skip (strOf "CloudWatchMCP//") [] '/' (strOf "CloudWatchMCP//" ++ rest)
      (not_prefix_slash_of_headC (strOf "CloudWatchMCP//") rfl _)]
    rw [hA2, pyReplace_consume, ← hA2]
    rw [pyReplace_noocc _ _ _ hocc2]
    rw [pyReplace_noocc _ _ _ hoccS2]

lemma dictGet_none_of_all {α : Type} (d : List (Str × α)) (key : Str)
    (h : ∀ p ∈ d, p.1 ≠ key) : dictGet d key = none := by
  induction d with
  | nil => rfl
  | cons e t ih =>
    simp only [dictGet]
    rw [if_neg (h e (by simp))]
    exact ih (fun p hp => h p (by simp [hp]))

lemma routes_none_of_head (c : Char) (t : Str) (hc : c ≠ '/') :
    dictGet default_routes (c :: t) = none := by
  apply dictGet_none_of_all
  intro p hp
  fin_cases hp
  all_goals
    intro he
  all_goals
    exact hc (Option.some.inj (show (some '/' : Option Char) = some c from
      congrArg List.head? he)).symm

lemma routes_none_of_second (c : Char) (t : Str)
    (hc : c ≠ 'd' ∧ c ≠ 'a' ∧ c ≠ 'g' ∧ c ≠ 'l' ∧ c ≠ 'h') :
    dictGet default_routes ('/' :: c :: t) = none := by
  apply dictGet_none_of_all
  intro p hp
  fin_cases hp
  all_goals
    intro he
  all_goals
    first
      | exact hc.1 (Option.some.inj (show (some 'd' : Option Char) = some c from
          congrArg (fun l => List.head? (List.tail l)) he)).symm
      | exact hc.2.1 (Option.some.inj (show (some 'a' : Option Char) = some c from
          congrArg (fun l => List.head? (List.tail l)) he)).symm
      | exact hc.2.2.1 (Option.some.inj (show (some 'g' : Option Char) = some c from
          congrArg (fun l => List.head? (List.tail l)) he)).symm
      | exact hc.2.2.2.1 (Option.some.inj (show (some 'l' : Option Char) = some c from
          congrArg (fun l => List.head? (List.tail l)) he)).symm
      | exact hc.2.2.2.2 (Option.some.inj (show (some 'h' : Option Char) = some c from
          congrArg (fun l => List.head? (List.tail l)) he)).symm

lemma get_handler_slash_form (rest : Str) (hnorm : normalize_path ('/' :: rest) = '/' :: rest) :
    get_handler ('/' :: rest) = dictGet default_routes ('/' :: rest) := by
  unfold get_handler
  rw [hnorm]
  cases hx : dictGet default_routes ('/' :: rest) <;> rfl

/-- C4: over paths built from 0 to 2 leading slashes, an optional
action-group prefix token (plain or double-slash form) and a route tail
that neither starts with a slash nor contains the token again,
`RouteRegistry` lookup is stable under `normalize_path`: normalization
yields exactly one leading slash before the tail, `get_handler` of the
normalized path agrees with `get_handler` of the raw path, and
normalization is idempotent. -/
theorem c4_route_lookup_stable (k : Nat) (pre rest : Str) (hk : k ≤ 2)
    (hpre : pre = [] ∨ pre = strOf "CloudWatchMCP/" ∨ pre = strOf "CloudWatchMCP//")
    (hh : rest.head? ≠ some '/')
    (hocc : ¬ strOf "CloudWatchMCP/" <:+: rest) :
    normalize_path (List.replicate k '/' ++ pre ++ rest) = '/' :: rest
    ∧ get_handler (normalize_path (List.replicate k '/' ++ pre ++ rest))
        = get_handler (List.replicate k '/' ++ pre ++ rest)
    ∧ normalize_path (normalize_path (List.replicate k '/' ++ pre ++ rest))
        = normalize_path (List.replicate k '/' ++ pre ++ rest) := by
  have h1 := normalize_path_class k pre rest hk hpre hh hocc
  have hid : normalize_path ('/' :: rest) = '/' :: rest := by
    have h2 := normalize_path_class 1 [] rest (by omega) (Or.inl rfl) hh hocc
    rw [show List.replicate 1 '/' ++ ([] : Str) ++ rest = '/' :: rest from rfl] at h2
    exact h2
  refine ⟨h1, ?_, ?_⟩
  · rw [h1, get_handler_slash_form rest hid]
    have hcase : List.replicate k '/' ++ pre ++ rest = '/' :: rest
        ∨ dictGet default_routes (List.replicate k '/' ++ pre ++ rest) = none := by
      interval_cases k <;> rcases hpre with rfl | rfl | rfl
      · cases hr : rest with
        | nil => exact Or.inr rfl
        | cons c t =>
          refine Or.inr ?_
          have hc : c ≠ '/' := fun hcc => hh (by simp [hr, hcc])
          exact routes_none_of_head c t hc
      · exact Or.inr (routes_none_of_head 'C' _ (by decide))
      · exact Or.inr (routes_none_of_head 'C' _ (by decide))
      · exact Or.inl (by simp)
      · exact Or.inr (routes_none_of_second 'C' _ (by decide))
      · exact Or.inr (routes_none_of_second 'C' _ (by decide))
      · exact Or.inr (routes_none_of_second '/' _ (by decide))
      · exact Or.inr (routes_none_of_second '/' _ (by decide))
      · exact Or.inr (routes_none_of_second '/' _ (by decide))
    rcases hcase with heq | hnone
    · rw [heq, get_handler_slash_form rest hid]
    · unfold get_handler
      rw [hnone, h1]
  · rw [h1]
    exact hid

/-- C4 witness: the double-slash-prefixed, doubly-slashed path for
describe-log-groups normalizes to the stored key and looks up stably. -/
theorem c4_route_lookup_stable_witness :
    ((2 ≤ 2)
      ∧ ((strOf "describe-log-groups").head? ≠ some '/')
      ∧ (¬ strOf "CloudWatchMCP/" <:+: strOf "describe-log-groups"))
    ∧ (normalize_path
          (List.replicate 2 '/' ++ strOf "CloudWatchMCP//" ++ strOf "describe-log-groups")
        = '/' :: strOf "describe-log-groups"
      ∧ get_handler (normalize_path
          (List.replicate 2 '/' ++ strOf "CloudWatchMCP//" ++ strOf "describe-log-groups"))
        = get_handler
          (List.replicate 2 '/' ++ strOf "CloudWatchMCP//" ++ strOf "describe-log-groups")
      ∧ normalize_path (normalize_path
          (List.replicate 2 '/' ++ strOf "CloudWatchMCP//" ++ strOf "describe-log-groups"))
        = normalize_path
          (List.replicate 2 '/' ++ strOf "CloudWatchMCP//" ++ strOf "describe-log-groups")) :=
  ⟨⟨by decide, by decide, by decide⟩,
    c4_route_lookup_stable 2 (strOf "CloudWatchMCP//") (strOf "describe-log-groups")
      (by decide) (Or.inr (Or.inr rfl)) (by decide) (by decide)⟩
